import Mathlib

/-
Shallow embedding of `src/drake_blender_visualizer/blender_visualizer.py`
(class `BlenderColorCamera`): the load-time scene construction (`load`),
the per-tick pose synchronization (`_DoPublish`), and the name derivation
helpers (`_parse_name`, `_format_geom_name`).

Python strings are modelled as `List Char`; floating point values are
modelled as exact rationals (the arithmetic performed by the code on the
inputs considered here is exact); the remote side effects issued through
`BlenderServerInterface.send_remote_call` / `render_image` are modelled as
an emitted list of `RemoteCall` values in program order.  A Python
exception (failed `assert`, KeyError, IndexError) is modelled by an
`ok := false` flag together with the calls emitted before the exception.
-/

namespace BlenderVis

/-- Python strings, modelled as lists of characters. -/
abbrev Chars := List Char

/-- Coercion from a Lean string literal to the character-list model. -/
def str (s : String) : Chars := s.data

/-- Decimal digit character for `n < 10` (code point 48 + n). -/
def digitChar (n : Nat) : Char := Char.ofNat (48 + n)

/-- Fuel-driven decimal printer (structural recursion so that the kernel
can evaluate it on concrete inputs). -/
def natCharsAux : Nat → Nat → Chars
  | 0, _ => []
  | fuel + 1, n =>
    if n < 10 then [digitChar n]
    else natCharsAux fuel (n / 10) ++ [digitChar (n % 10)]

/-- Decimal representation of a natural number, as produced by the Python
`"{}".format(i)` applied to a nonnegative integer. -/
def natChars (n : Nat) : Chars := natCharsAux (n + 1) n

/-- Reads a digit list back into a number; used to prove `natChars`
injective. -/
def decodeDigits (l : Chars) : Nat :=
  l.foldl (fun a c => 10 * a + (c.toNat - 48)) 0

/-- Embeds `BlenderColorCamera._parse_name`: split a name on the first
occurrence of the delimiter `::` into `(source_name, frame_name)`.
Returns `none` when the delimiter is absent (the Python code hits
`assert delim in name` there). -/
def splitFirst : Chars → Option (Chars × Chars)
  | [] => none
  | a :: rest =>
    match rest with
    | [] => none
    | b :: rest2 =>
      if a = ':' ∧ b = ':' then some ([], rest2)
      else (splitFirst rest).map (fun p => (a :: p.1, p.2))

/-- Decides whether the two-colon delimiter occurs anywhere in a list. -/
def hasDColon : Chars → Bool
  | [] => false
  | [_] => false
  | a :: b :: rest => (decide (a = ':') && decide (b = ':')) || hasDColon (b :: rest)

/-- Characterizes the source part produced by `_parse_name`: it contains no
`::` occurrence and does not end in a colon (otherwise the first `::` of
the full name would start earlier). -/
def CleanSrc (s : Chars) : Prop := hasDColon s = false ∧ s.getLast? ≠ some ':'

/-- Embeds `BlenderColorCamera._format_geom_name`, which produces
`"{}::{}::{}::{}".format(source_name, model_id, frame_name, i)`. -/
def formatGeomName (src frame : Chars) (modelId i : Nat) : Chars :=
  src ++ ':' :: ':' :: (natChars modelId ++ ':' :: ':' :: (frame ++ ':' :: ':' :: natChars i))

/-- Vectors in 3-space with exact rational coordinates. -/
structure Vec3 where
  x : ℚ
  y : ℚ
  z : ℚ
deriving DecidableEq

/-- RGBA color, matching the four-component `geom.color` array. -/
structure Rgba where
  r : ℚ
  g : ℚ
  b : ℚ
  a : ℚ
deriving DecidableEq

/-- Quaternion in the (w, x, y, z) order used by the load message. -/
structure Quat where
  w : ℚ
  x : ℚ
  y : ℚ
  z : ℚ
deriving DecidableEq

/-- Row-major 3x3 matrix with rational entries. -/
structure Mat3 where
  m00 : ℚ
  m01 : ℚ
  m02 : ℚ
  m10 : ℚ
  m11 : ℚ
  m12 : ℚ
  m20 : ℚ
  m21 : ℚ
  m22 : ℚ
deriving DecidableEq

def Mat3.one : Mat3 := ⟨1, 0, 0, 0, 1, 0, 0, 0, 1⟩

def Mat3.mul (A B : Mat3) : Mat3 :=
  ⟨A.m00 * B.m00 + A.m01 * B.m10 + A.m02 * B.m20,
   A.m00 * B.m01 + A.m01 * B.m11 + A.m02 * B.m21,
   A.m00 * B.m02 + A.m01 * B.m12 + A.m02 * B.m22,
   A.m10 * B.m00 + A.m11 * B.m10 + A.m12 * B.m20,
   A.m10 * B.m01 + A.m11 * B.m11 + A.m12 * B.m21,
   A.m10 * B.m02 + A.m11 * B.m12 + A.m12 * B.m22,
   A.m20 * B.m00 + A.m21 * B.m10 + A.m22 * B.m20,
   A.m20 * B.m01 + A.m21 * B.m11 + A.m22 * B.m21,
   A.m20 * B.m02 + A.m21 * B.m12 + A.m22 * B.m22⟩

def Mat3.mulVec (A : Mat3) (v : Vec3) : Vec3 :=
  ⟨A.m00 * v.x + A.m01 * v.y + A.m02 * v.z,
   A.m10 * v.x + A.m11 * v.y + A.m12 * v.z,
   A.m20 * v.x + A.m21 * v.y + A.m22 * v.z⟩

def Vec3.add (u v : Vec3) : Vec3 := ⟨u.x + v.x, u.y + v.y, u.z + v.z⟩

/-- Rigid (affine) transform: the 4x4 homogeneous matrices handled by the
code all have the shape `[R t; 0 1]`, so their products are faithfully
modelled by composition of rotation-plus-translation pairs. -/
structure RigidTf where
  rot : Mat3
  trans : Vec3
deriving DecidableEq

def RigidTf.one : RigidTf := ⟨Mat3.one, ⟨0, 0, 0⟩⟩

/-- Composition, equal to the product of the corresponding 4x4 matrices
(`numpy.dot` in `_DoPublish`, `Isometry3.multiply` for cameras). -/
def RigidTf.comp (A B : RigidTf) : RigidTf :=
  ⟨A.rot.mul B.rot, (A.rot.mulVec B.trans).add A.trans⟩

/-- Rotation matrix of a (possibly non-unit) quaternion, following the
exact rational scaling by `2 / norm_squared` used by the
`RotationMatrix(Quaternion(...))` conversion at load time. -/
def quatToMat3 (q : Quat) : Mat3 :=
  let s : ℚ := q.w * q.w + q.x * q.x + q.y * q.y + q.z * q.z
  ⟨1 - 2 * (q.y * q.y + q.z * q.z) / s,
   2 * (q.x * q.y - q.w * q.z) / s,
   2 * (q.x * q.z + q.w * q.y) / s,
   2 * (q.x * q.y + q.w * q.z) / s,
   1 - 2 * (q.x * q.x + q.z * q.z) / s,
   2 * (q.y * q.z - q.w * q.x) / s,
   2 * (q.x * q.z - q.w * q.y) / s,
   2 * (q.y * q.z + q.w * q.x) / s,
   1 - 2 * (q.x * q.x + q.y * q.y) / s⟩

/-- Primitive kind tag of a geometry record (`geom.type` in the load
message); kinds other than the four supported ones fall into the
`unsup` catch-all handled by the final `else` branch of `load`. -/
inductive GeomType where
  | box
  | sphere
  | cylinder
  | mesh
  | unsup (tag : Nat)
deriving DecidableEq

/-- One geometry record of the load message (`link.geom[j]`). The message
invariant `num_float_data == len(float_data)` is built in by modelling the
float payload as a single list. -/
structure GeomRecord where
  type : GeomType
  position : Vec3
  quaternion : Quat
  color : Rgba
  floatData : List ℚ
  stringData : Chars
deriving DecidableEq

/-- One link record of the load message (`load_robot_msg.link[i]`), with
`num_geom == len(geom)` built in. -/
structure LinkRecord where
  name : Chars
  robotNum : Nat
  geoms : List GeomRecord

/-- Keyword arguments of a material override rule, passed verbatim to
`register_material`. -/
abbrev OvrParams := List (Chars × Chars)

/-- Construction-time configuration of `BlenderColorCamera`: the compiled
material override rules (a compiled regex is modelled as its match
predicate on the candidate name), the global transform, the camera
transforms, and the `os.path.exists` probe used for mesh textures. -/
structure Config where
  materialOverrides : List ((Chars → Bool) × OvrParams)
  globalTransform : RigidTf
  cameraTfs : List RigidTf
  pathExists : Chars → Bool

/-- Payload of a `register_material` remote call. -/
inductive MatParams where
  | override (args : OvrParams)
  | colorTexture (path : Chars)
  | flatColor (color : Rgba)
deriving DecidableEq

/-- Scale argument of a `register_object` remote call: scalar for spheres,
list for the other kinds. -/
inductive ScaleArg where
  | scalar (s : ℚ)
  | vec (xs : List ℚ)
deriving DecidableEq

/-- Remote calls issued through the Blender server interface, in program
order.  `initScene` stands for the `initialize_scene` call; `camRender`
stands for `render_image` and records the camera index and the publish
counter baked into the output file name; the update call records the
rotation by the rotation matrix whose unit quaternion the code ships. -/
inductive RemoteCall where
  | initScene
  | registerMaterial (name : Chars) (params : MatParams)
  | registerObject (name objType : Chars) (scale : ScaleArg) (location : Vec3)
      (quaternion : Quat) (material : Chars) (path : Option Chars)
  | registerCamera (name : Chars) (tf : RigidTf) (angle : ℚ)
  | configureRendering (cameraName : Chars) (resX resY : Nat) (fileFormat : Chars)
  | setEnvironmentMap (path : Chars)
  | updateParameters (name : Chars) (location : Vec3) (rotation : Mat3)
  | camRender (cameraName : Chars) (camIdx pubNum : Nat)
  | saveCurrentScene (path : Chars)
deriving DecidableEq

/-- Python `s[0:-3]`: everything but the last three characters. -/
def dropRight3 (l : Chars) : Chars := l.take (l.length - 3)

/-- Local 4x4 transform cached for a visible geometry
(`RigidTransform(RotationMatrix(Quaternion(...)), position).GetAsMatrix4()`). -/
def geomLocalTf (g : GeomRecord) : RigidTf := ⟨quatToMat3 g.quaternion, g.position⟩

/-- Parameter payloads of the override rules whose pattern matches `name`,
in declaration order. -/
def matchingOverrides (cfg : Config) (name : Chars) : List OvrParams :=
  (cfg.materialOverrides.filter (fun o => o.1 name)).map (fun o => o.2)

/-- Modelled from the spec: the Python code assigns
`material_key_assigned = self.bsi.send_remote_call(...)` when registering
a texture material, and `BlenderServerInterface` is defined outside
`src/`; per the resolver algorithm of the spec (section 4.2), a
successful texture registration claims the material key, so the returned
value is taken as truthy. -/
def remoteCallSucceeds : Bool := true

/-- Result of processing one geometry record inside `load`: the derived
name assigned at line 165 (only for visible geometries), the local
transform appended to `tfs` at line 167, the remote calls emitted, and
whether control flow survived the branch (a failed `assert` sets
`ok := false`). -/
structure GeomStep where
  name : Option Chars
  tf : Option RigidTf
  calls : List RemoteCall
  ok : Bool
deriving DecidableEq

/-- Embeds the body of the inner `for j in range(link.num_geom)` loop of
`BlenderColorCamera.load` for one geometry record. -/
def processGeom (cfg : Config) (src frame : Chars) (robotNum j : Nat)
    (g : GeomRecord) : GeomStep :=
  if g.color.a = 0 then ⟨none, none, [], true⟩
  else
    let name := formatGeomName src frame robotNum j
    let matKey := str "material_" ++ name
    let objKey := str "obj_" ++ name
    let oCalls := (matchingOverrides cfg name).map
      (fun p => RemoteCall.registerMaterial matKey (MatParams.override p))
    let assigned0 := !(matchingOverrides cfg name).isEmpty
    let fallback := if assigned0 then []
      else [RemoteCall.registerMaterial matKey (MatParams.flatColor g.color)]
    match g.type with
    | GeomType.box =>
      if g.floatData.length = 3 then
        ⟨some name, some (geomLocalTf g),
         oCalls ++ fallback ++
           [RemoteCall.registerObject objKey (str "cube")
             (ScaleArg.vec ((g.floatData.take 3).map (fun x => x * (1 / 2))))
             g.position g.quaternion matKey none],
         true⟩
      else ⟨some name, some (geomLocalTf g), oCalls, false⟩
    | GeomType.sphere =>
      if g.floatData.length = 1 then
        ⟨some name, some (geomLocalTf g),
         oCalls ++ fallback ++
           [RemoteCall.registerObject objKey (str "sphere")
             (ScaleArg.scalar g.floatData.headI)
             g.position g.quaternion matKey none],
         true⟩
      else ⟨some name, some (geomLocalTf g), oCalls, false⟩
    | GeomType.cylinder =>
      if g.floatData.length = 2 then
        ⟨some name, some (geomLocalTf g),
         oCalls ++ fallback ++
           [RemoteCall.registerObject objKey (str "cylinder")
             (ScaleArg.vec [g.floatData.headI, g.floatData.headI,
               (1 / 2) * g.floatData.getD 1 0])
             g.position g.quaternion matKey none],
         true⟩
      else ⟨some name, some (geomLocalTf g), oCalls, false⟩
    | GeomType.mesh =>
      let texPath := dropRight3 g.stringData ++ str "png"
      let texCalls := if !assigned0 && cfg.pathExists texPath
        then [RemoteCall.registerMaterial matKey (MatParams.colorTexture texPath)]
        else []
      let fallbackMesh :=
        if assigned0 || (cfg.pathExists texPath && remoteCallSucceeds) then []
        else [RemoteCall.registerMaterial matKey (MatParams.flatColor g.color)]
      ⟨some name, some (geomLocalTf g),
       oCalls ++ texCalls ++ fallbackMesh ++
         [RemoteCall.registerObject objKey (str "obj")
           (ScaleArg.vec (g.floatData.take 3))
           g.position g.quaternion matKey
           (some (dropRight3 g.stringData ++ str "obj"))],
       true⟩
    | GeomType.unsup _ =>
      ⟨some name, some (geomLocalTf g), oCalls, true⟩

/-- Accumulated result of the geometry loop of one link. -/
structure LinkStep where
  names : List Chars
  tfs : List RigidTf
  calls : List RemoteCall
  ok : Bool

/-- Runs the geometry loop of `load` from raw index `j` on; a failed
`assert` aborts the whole load, truncating the emitted call stream. -/
def processGeoms (cfg : Config) (src frame : Chars) (robotNum : Nat) :
    Nat → List GeomRecord → LinkStep
  | _, [] => ⟨[], [], [], true⟩
  | j, g :: rest =>
    let s := processGeom cfg src frame robotNum j g
    if s.ok then
      let r := processGeoms cfg src frame robotNum (j + 1) rest
      ⟨s.name.toList ++ r.names, s.tf.toList ++ r.tfs, s.calls ++ r.calls, r.ok⟩
    else ⟨s.name.toList, s.tf.toList, s.calls, false⟩

/-- State cached by `load` and read back by `_DoPublish`: the two
dictionaries keyed by link name (later assignments overwrite earlier
ones, as in a Python dict). -/
structure LoadState where
  numGeoms : List (Chars × Nat)
  localTfs : List (Chars × List RigidTf)
deriving DecidableEq

/-- Python dict lookup over the association list of performed assignments:
the last assignment to a key wins; `none` models a KeyError. -/
def dictFind {α : Type} (m : List (Chars × α)) (k : Chars) : Option α :=
  (m.reverse.find? (fun p => decide (p.1 = k))).map (fun p => p.2)

/-- Result of the per-link portion of `load`. -/
structure LoadResult where
  names : List Chars
  calls : List RemoteCall
  state : Option LoadState

/-- Embeds the `for i in range(load_robot_msg.num_links)` loop of `load`:
parse the link name (fatal assert when `::` is absent), record the raw
geometry count, run the geometry loop, record the visible local
transforms. -/
def loadLinks (cfg : Config) : List LinkRecord → LoadResult
  | [] => ⟨[], [], some ⟨[], []⟩⟩
  | l :: rest =>
    match splitFirst l.name with
    | none => ⟨[], [], none⟩
    | some (src, frame) =>
      let s := processGeoms cfg src frame l.robotNum 0 l.geoms
      if s.ok then
        let r := loadLinks cfg rest
        match r.state with
        | some st =>
          ⟨s.names ++ r.names, s.calls ++ r.calls,
           some ⟨(l.name, l.geoms.length) :: st.numGeoms,
                 (l.name, s.tfs) :: st.localTfs⟩⟩
        | none => ⟨s.names ++ r.names, s.calls ++ r.calls, none⟩
      else ⟨s.names, s.calls, none⟩

/-- Camera registration pass of `load` (register each camera under
`cam_<index>` with the global transform premultiplied, then configure its
rendering). -/
def cameraCalls (cfg : Config) : Nat → List RigidTf → List RemoteCall
  | _, [] => []
  | i, tf :: rest =>
    RemoteCall.registerCamera (str "cam_" ++ natChars i)
        (cfg.globalTransform.comp tf) 90
      :: RemoteCall.configureRendering (str "cam_" ++ natChars i) 1280 720 (str "JPEG")
      :: cameraCalls cfg (i + 1) rest

def envMapPath : Chars :=
  str "/home/gizatt/tools/blender_server/data/env_maps/shanghai_bund_4k.hdr"

/-- Embeds `BlenderColorCamera.load` for a decoded load message: the
initial `initialize_scene` call, the link loop, then (when no exception
interrupted the loop) cameras and the environment map. -/
def load (cfg : Config) (msg : List LinkRecord) : LoadResult :=
  let r := loadLinks cfg msg
  match r.state with
  | some st =>
    ⟨r.names,
     RemoteCall.initScene :: r.calls ++ cameraCalls cfg 0 cfg.cameraTfs
       ++ [RemoteCall.setEnvironmentMap envMapPath],
     some st⟩
  | none => ⟨r.names, RemoteCall.initScene :: r.calls, none⟩

/-- One entry of the pose bundle input evaluated by `_DoPublish`: body
name, model instance id, and current world pose. -/
structure PoseEntry where
  name : Chars
  modelId : Nat
  pose : RigidTf

/-- Calls emitted by (part of) a publish, with `ok := false` when a Python
exception (assert, KeyError, IndexError) interrupted it. -/
structure PublishResult where
  calls : List RemoteCall
  ok : Bool

/-- Embeds the inner `for j in range(self.num_link_geometries_by_link_name
[link_name])` loop of `_DoPublish`: `j` is the running index, the second
argument the remaining iteration count; indexing the cached transform
list out of range raises, which truncates the emitted calls. -/
def publishLoop (cfg : Config) (src frame : Chars) (modelId : Nat) (pose : RigidTf)
    (tfs : List RigidTf) : Nat → Nat → PublishResult
  | _, 0 => ⟨[], true⟩
  | j, k + 1 =>
    match tfs[j]? with
    | none => ⟨[], false⟩
    | some tf =>
      let off := cfg.globalTransform.comp (pose.comp tf)
      let r := publishLoop cfg src frame modelId pose tfs (j + 1) k
      ⟨RemoteCall.updateParameters
          (str "obj_" ++ formatGeomName src frame modelId j) off.trans off.rot
        :: r.calls, r.ok⟩

/-- Embeds the body of the `for frame_i in range(pose_bundle.get_num_poses())`
loop of `_DoPublish` for one pose-bundle entry: parse the link name, look
up the cached geometry count and local transforms, then run the update
loop. -/
def publishEntry (cfg : Config) (st : LoadState) (e : PoseEntry) : PublishResult :=
  match splitFirst e.name with
  | none => ⟨[], false⟩
  | some (src, frame) =>
    match dictFind st.numGeoms e.name with
    | none => ⟨[], false⟩
    | some n =>
      match dictFind st.localTfs e.name with
      | none => ⟨[], false⟩
      | some tfs => publishLoop cfg src frame e.modelId e.pose tfs 0 n

/-- Runs the pose-bundle loop over all entries, aborting at the first
exception. -/
def publishEntries (cfg : Config) (st : LoadState) : List PoseEntry → PublishResult
  | [] => ⟨[], true⟩
  | e :: rest =>
    let r := publishEntry cfg st e
    if r.ok then
      let r2 := publishEntries cfg st rest
      ⟨r.calls ++ r2.calls, r2.ok⟩
    else ⟨r.calls, false⟩

/-- Per-camera `render_image` requests of one publish. -/
def renderCalls (pubNum : Nat) : Nat → List RigidTf → List RemoteCall
  | _, [] => []
  | i, _ :: rest =>
    RemoteCall.camRender (str "cam_" ++ natChars i) i pubNum
      :: renderCalls pubNum (i + 1) rest

def savePath : Chars := str "/tmp/drake_blender_vis_scene.blend"

/-- Embeds `BlenderColorCamera._DoPublish` for one tick with publish
counter `pubNum`: pose updates for every bundle entry, per-camera
renders, and the one-time scene snapshot gated on `current_publish_num == 0`. -/
def doPublish (cfg : Config) (st : LoadState) (pubNum : Nat)
    (bundle : List PoseEntry) : PublishResult :=
  let r := publishEntries cfg st bundle
  if r.ok then
    ⟨r.calls ++ renderCalls pubNum 0 cfg.cameraTfs
       ++ (if pubNum = 0 then [RemoteCall.saveCurrentScene savePath] else []),
     true⟩
  else ⟨r.calls, false⟩

/-- Runs successive ticks; the counter increments at the end of each
successful publish, and an exception stops the session (the simulator
loop does not survive a raise from `_DoPublish`). Returns the per-tick
call segments. -/
def runTicks (cfg : Config) (st : LoadState) :
    Nat → List (List PoseEntry) → List (List RemoteCall) × Bool
  | _, [] => ([], true)
  | pubNum, b :: rest =>
    let r := doPublish cfg st pubNum b
    if r.ok then
      let p := runTicks cfg st (pubNum + 1) rest
      (r.calls :: p.1, p.2)
    else ([r.calls], false)

/-- Full session: the initialization-event load followed by `N` periodic
publishes. -/
def session (cfg : Config) (msg : List LinkRecord)
    (ticks : List (List PoseEntry)) : List RemoteCall × Bool :=
  let L := load cfg msg
  match L.state with
  | none => (L.calls, false)
  | some st =>
    let p := runTicks cfg st 0 ticks
    (L.calls ++ p.1.flatten, p.2)

/-- Names carried by the `register_object` calls of a call stream. -/
def registeredObjNames (cs : List RemoteCall) : List Chars :=
  cs.filterMap (fun c => match c with
    | RemoteCall.registerObject n _ _ _ _ _ _ => some n
    | _ => none)

/-- Payloads of the `register_material` calls addressed to key `k`, in
stream order. -/
def matCallsFor (k : Chars) (cs : List RemoteCall) : List MatParams :=
  cs.filterMap (fun c => match c with
    | RemoteCall.registerMaterial n p => if n = k then some p else none
    | _ => none)

/-- Names carried by the `update_parameters` calls of a call stream. -/
def updateNames (cs : List RemoteCall) : List Chars :=
  cs.filterMap (fun c => match c with
    | RemoteCall.updateParameters n _ _ => some n
    | _ => none)

def isSaveCall : RemoteCall → Bool
  | RemoteCall.saveCurrentScene _ => true
  | _ => false

def countSaves (cs : List RemoteCall) : Nat := cs.countP isSaveCall

def isRegisterCall : RemoteCall → Bool
  | RemoteCall.registerMaterial _ _ => true
  | RemoteCall.registerObject _ _ _ _ _ _ _ => true
  | _ => false

def isUpdateCall : RemoteCall → Bool
  | RemoteCall.updateParameters _ _ _ => true
  | _ => false

/-- Material key referenced by a `register_object` call, when the call is
one. -/
def objMatKey : RemoteCall → Option Chars
  | RemoteCall.registerObject _ _ _ _ _ m _ => some m
  | _ => none

/-- A call stream in which every `register_object` call is preceded by a
`register_material` call for the material key it references. -/
def MatBeforeObj (l : List RemoteCall) : Prop :=
  ∀ (i : Nat) (k : Chars) (c : RemoteCall), l[i]? = some c → objMatKey c = some k →
    ∃ (m : Nat) (p : MatParams), m < i ∧ l[m]? = some (RemoteCall.registerMaterial k p)

/-- Boolean check that a candidate list starts with the given pattern. -/
def leadsWith : Chars → Chars → Bool
  | [], _ => true
  | _ :: _, [] => false
  | a :: s, b :: t => decide (a = b) && leadsWith s t

/-- Substring test, used to instantiate a compiled regex of the shape
`.*word.*` on concrete inputs. -/
def containsSub (sub : Chars) : Chars → Bool
  | [] => leadsWith sub []
  | l@(_ :: t) => leadsWith sub l || containsSub sub t

def cfgNil : Config := ⟨[], RigidTf.one, [], fun _ => false⟩

/-- Box geometry, fully opaque, local transform the identity. -/
def gBox : GeomRecord :=
  ⟨GeomType.box, ⟨0, 0, 0⟩, ⟨1, 0, 0, 0⟩, ⟨1, 1, 1, 1⟩, [1, 1, 1], []⟩

/-- Sphere geometry with alpha equal to zero (collision geometry). -/
def gInvis : GeomRecord :=
  ⟨GeomType.sphere, ⟨0, 0, 0⟩, ⟨1, 0, 0, 0⟩, ⟨1, 1, 1, 0⟩, [1], []⟩

/-- Geometry with an unrecognized primitive kind tag. -/
def gUnsup : GeomRecord :=
  ⟨GeomType.unsup 7, ⟨0, 0, 0⟩, ⟨1, 0, 0, 0⟩, ⟨1, 1, 1, 1⟩, [], []⟩

/-- Link with an invisible geometry at raw index 0 followed by a visible
box at raw index 1. -/
def linkMixed : LinkRecord := ⟨str "a::b", 0, [gInvis, gBox]⟩

def linkBox : LinkRecord := ⟨str "a::b", 0, [gBox]⟩

def linkOnlyInvis : LinkRecord := ⟨str "a::b", 0, [gInvis]⟩

/-- Translation by one along x. -/
def tfX : RigidTf := ⟨Mat3.one, ⟨1, 0, 0⟩⟩

def entryAB : PoseEntry := ⟨str "a::b", 0, tfX⟩

def parM1 : OvrParams := [(str "material_type", str "CC0_texture")]

def parM2 : OvrParams := [(str "material_type", str "color")]

/-- Override configuration with two overlapping rules: a `.*box.*`-style
rule with parameters `parM1` declared first, then a catch-all rule with
parameters `parM2`. -/
def cfgOvr : Config :=
  ⟨[(containsSub (str "box"), parM1), (fun _ => true, parM2)],
   RigidTf.one, [], fun _ => false⟩

def linkFooBox : LinkRecord := ⟨str "foo::box", 0, [gBox]⟩

/-- Mesh geometry, fully opaque, with a model path. -/
def gMesh : GeomRecord :=
  ⟨GeomType.mesh, ⟨0, 0, 0⟩, ⟨1, 0, 0, 0⟩, ⟨1, 0, 0, 1⟩, [1, 1, 1], str "model.obj"⟩

/-- Configuration with a single catch-all override rule. -/
def cfgAll : Config := ⟨[(fun _ => true, parM2)], RigidTf.one, [], fun _ => false⟩

/-- Load state cached by a successful load of `[linkOnlyInvis]`: geometry
count 1 but an empty local transform list. -/
def stInvis : LoadState := ⟨[(str "a::b", 1)], [(str "a::b", [])]⟩

/-- Two-tick pose bundle sequence for the session fixtures. -/
def ticks2 : List (List PoseEntry) := [[entryAB], [entryAB]]

/-- Names the load loop assigns when indices are taken from the raw record
position (the running loop variable `j`), skipping alpha-zero records
without renumbering: the reference stream for the amended claim C3. -/
def rawNames (src frame : Chars) (robotNum : Nat) : Nat → List GeomRecord → List Chars
  | _, [] => []
  | j, g :: rest =>
    (if g.color.a = 0 then [] else [formatGeomName src frame robotNum j])
      ++ rawNames src frame robotNum (j + 1) rest

/-- Load state cached by a successful load of `[linkMixed]`. -/
def stMixed : LoadState := ((load cfgNil [linkMixed]).state).getD ⟨[], []⟩

/-- Load state cached by a successful load of `[linkBox]`. -/
def stBox : LoadState := ((load cfgNil [linkBox]).state).getD ⟨[], []⟩

theorem digitChar_toNat {d : Nat} (h : d < 10) : (digitChar d).toNat = 48 + d := by
  interval_cases d <;> decide

theorem natCharsAux_eval {fuel n : Nat} (h : n < fuel) :
    decodeDigits (natCharsAux fuel n) = n := by
  induction fuel generalizing n with
  | zero => omega
  | succ fuel ih =>
    by_cases h10 : n < 10
    · simp only [natCharsAux, if_pos h10, decodeDigits, List.foldl_cons, List.foldl_nil]
      rw [digitChar_toNat h10]
      omega
    · have hd : n / 10 < fuel := by
        have h1 : n / 10 < n := Nat.div_lt_self (by omega) (by omega)
        omega
      simp only [natCharsAux, if_neg h10]
      have hfold : ∀ (l : Chars) (c : Char) (a : Nat),
          (l ++ [c]).foldl (fun a c => 10 * a + (c.toNat - 48)) a
            = 10 * (l.foldl (fun a c => 10 * a + (c.toNat - 48)) a) + (c.toNat - 48) := by
        intro l c a
        simp [List.foldl_append]
      simp only [decodeDigits] at ih ⊢
      rw [hfold, ih hd, digitChar_toNat (Nat.mod_lt n (by omega))]
      omega

theorem natChars_inj {m n : Nat} (h : natChars m = natChars n) : m = n := by
  have hm := @natCharsAux_eval (m + 1) m (by omega)
  have hn := @natCharsAux_eval (n + 1) n (by omega)
  rw [natChars] at h
  rw [natChars] at h
  rw [h] at hm
  rw [hn] at hm
  exact hm.symm

theorem natCharsAux_digits {fuel n : Nat} {c : Char} (hc : c ∈ natCharsAux fuel n) :
    ∃ d, d < 10 ∧ c = digitChar d := by
  induction fuel generalizing n with
  | zero => simp [natCharsAux] at hc
  | succ fuel ih =>
    by_cases h10 : n < 10
    · simp only [natCharsAux, if_pos h10, List.mem_singleton] at hc
      exact ⟨n, h10, hc⟩
    · simp only [natCharsAux, if_neg h10, List.mem_append, List.mem_singleton] at hc
      rcases hc with hc | hc
      · exact ih hc
      · exact ⟨n % 10, Nat.mod_lt n (by omega), hc⟩

theorem digitChar_ne_colon {d : Nat} (h : d < 10) : digitChar d ≠ ':' := by
  interval_cases d <;> decide

theorem natChars_no_colon {n : Nat} {c : Char} (hc : c ∈ natChars n) : c ≠ ':' := by
  rcases natCharsAux_digits hc with ⟨d, hd, rfl⟩
  exact digitChar_ne_colon hd

theorem natChars_ne_nil (n : Nat) : natChars n ≠ [] := by
  by_cases h10 : n < 10 <;> simp [natChars, natCharsAux, h10]

theorem splitFirst_cons_cons (a b : Char) (t : Chars) :
    splitFirst (a :: b :: t) =
      if a = ':' ∧ b = ':' then some ([], t)
      else (splitFirst (b :: t)).map (fun p => (a :: p.1, p.2)) := rfl

theorem cleanSrc_of_no_colon {s : Chars} (h : ∀ c ∈ s, c ≠ ':') (_hne : s ≠ []) :
    CleanSrc s := by
  constructor
  · induction s with
    | nil => rfl
    | cons a t ih =>
      match t with
      | [] => rfl
      | b :: t2 =>
        have ha : a ≠ ':' := h a (by simp)
        have hrest : ∀ c ∈ b :: t2, c ≠ ':' := fun c hc => h c (by simp [hc])
        simp [hasDColon, ha, ih hrest]
  · intro hl
    exact h ':' (List.mem_of_mem_getLast? hl) rfl

theorem splitFirst_append {s t : Chars} (h : CleanSrc s) :
    splitFirst (s ++ ':' :: ':' :: t) = some (s, t) := by
  obtain ⟨hdc, hlast⟩ := h
  induction s with
  | nil => simp [splitFirst]
  | cons a s' ih =>
    match s' with
    | [] =>
      have ha : a ≠ ':' := by
        intro hcon
        exact hlast (by simp [hcon])
      show splitFirst (a :: ':' :: ':' :: t) = some ([a], t)
      rw [splitFirst_cons_cons, if_neg (by tauto)]
      rw [show splitFirst (':' :: ':' :: t) = some ([], t) by
        rw [splitFirst_cons_cons, if_pos ⟨rfl, rfl⟩]]
      rfl
    | b :: s'' =>
      have hpair : ¬(a = ':' ∧ b = ':') := by
        intro ⟨h1, h2⟩
        simp [hasDColon, h1, h2] at hdc
      have hdc' : hasDColon (b :: s'') = false := by
        simp only [hasDColon, Bool.or_eq_false_iff] at hdc
        exact hdc.2
      have hlast' : (b :: s'').getLast? ≠ some ':' := by
        simpa [List.getLast?_cons_cons] using hlast
      have ihr := ih hdc' hlast'
      show splitFirst (a :: b :: (s'' ++ ':' :: ':' :: t)) = some (a :: b :: s'', t)
      rw [splitFirst_cons_cons, if_neg hpair]
      have ihr' : splitFirst (b :: (s'' ++ ':' :: ':' :: t)) = some (b :: s'', t) := by
        simpa [List.cons_append] using ihr
      rw [ihr']
      rfl

theorem splitFirst_eq_some {n s f : Chars} (h : splitFirst n = some (s, f)) :
    n = s ++ ':' :: ':' :: f ∧ CleanSrc s := by
  induction n generalizing s f with
  | nil => simp [splitFirst] at h
  | cons a rest ih =>
    match rest with
    | [] => simp [splitFirst] at h
    | b :: rest2 =>
      rw [splitFirst_cons_cons] at h
      by_cases hpair : a = ':' ∧ b = ':'
      · rw [if_pos hpair] at h
        injection h with h'
        injection h' with h1 h2
        subst h1 h2
        obtain ⟨rfl, rfl⟩ := hpair
        exact ⟨rfl, by constructor <;> simp [hasDColon]⟩
      · rw [if_neg hpair] at h
        cases hrec : splitFirst (b :: rest2) with
        | none => rw [hrec] at h; exact absurd h (by simp)
        | some p =>
          obtain ⟨s', f'⟩ := p
          rw [hrec] at h
          simp only [Option.map_some'] at h
          injection h with h'
          injection h' with h1 h2
          subst h1 h2
          obtain ⟨hn, hdc, hlast⟩ := ih hrec
          refine ⟨by simp [hn], ?_, ?_⟩
          · match s', hn, hdc with
            | [], hn2, _ =>
              have hb : b = ':' := by
                simpa using congrArg (fun l => l.head?) hn2
              have ha' : a ≠ ':' := fun hcon => hpair ⟨hcon, hb⟩
              simp [hasDColon, ha']
            | c :: s'', hn2, hdc2 =>
              have hb : b = c := by
                simpa using congrArg (fun l => l.head?) hn2
              have hac : ¬(a = ':' ∧ c = ':') := by
                intro ⟨h1, h2⟩
                exact hpair ⟨h1, hb ▸ h2⟩
              have : (decide (a = ':') && decide (c = ':')) = false := by
                rcases Decidable.em (a = ':') with h1 | h1
                · rcases Decidable.em (c = ':') with h2 | h2
                  · exact absurd ⟨h1, h2⟩ hac
                  · simp [h2]
                · simp [h1]
              simp [hasDColon, this, hdc2]
          · match s', hn, hlast with
            | [], hn2, _ =>
              have hb : b = ':' := by
                simpa using congrArg (fun l => l.head?) hn2
              have ha' : a ≠ ':' := fun hcon => hpair ⟨hcon, hb⟩
              simpa using ha'
            | c :: s'', _, hlast2 =>
              simpa [List.getLast?_cons_cons] using hlast2

/-- Front cancellation: with clean sources on both sides, a `::`-separated
concatenation determines its first component. -/
theorem dcolon_cancel_left {s1 s2 r1 r2 : Chars} (h1 : CleanSrc s1) (h2 : CleanSrc s2)
    (h : s1 ++ ':' :: ':' :: r1 = s2 ++ ':' :: ':' :: r2) : s1 = s2 ∧ r1 = r2 := by
  have e1 := splitFirst_append (t := r1) h1
  have e2 := splitFirst_append (t := r2) h2
  rw [h, e2] at e1
  injection e1 with e
  injection e with e1 e2
  exact ⟨e1.symm, e2.symm⟩

/-- Back cancellation: when both right components are nonempty and free of
colons, a `::`-separated concatenation determines them. -/
theorem dcolon_cancel_right {f1 f2 j1 j2 : Chars}
    (hj1 : ∀ c ∈ j1, c ≠ ':') (hn1 : j1 ≠ [])
    (hj2 : ∀ c ∈ j2, c ≠ ':') (hn2 : j2 ≠ [])
    (h : f1 ++ ':' :: ':' :: j1 = f2 ++ ':' :: ':' :: j2) : f1 = f2 ∧ j1 = j2 := by
  have hrev : j1.reverse ++ ':' :: ':' :: f1.reverse
      = j2.reverse ++ ':' :: ':' :: f2.reverse := by
    have := congrArg List.reverse h
    simpa [List.reverse_append] using this
  have hc1 : CleanSrc j1.reverse :=
    cleanSrc_of_no_colon (fun c hc => hj1 c (List.mem_reverse.mp hc)) (by simpa using hn1)
  have hc2 : CleanSrc j2.reverse :=
    cleanSrc_of_no_colon (fun c hc => hj2 c (List.mem_reverse.mp hc)) (by simpa using hn2)
  obtain ⟨hja, hfa⟩ := dcolon_cancel_left hc1 hc2 hrev
  refine ⟨?_, ?_⟩
  · have := congrArg List.reverse hfa
    simpa using this
  · have := congrArg List.reverse hja
    simpa using this

theorem cleanSrc_natChars (n : Nat) : CleanSrc (natChars n) :=
  cleanSrc_of_no_colon (fun _ hc => natChars_no_colon hc) (natChars_ne_nil n)

/-- Derived geometry names determine all four components, provided the two
source parts are clean (which `_parse_name` guarantees). -/
theorem formatGeomName_inj {s1 s2 f1 f2 : Chars} {m1 m2 j1 j2 : Nat}
    (h1 : CleanSrc s1) (h2 : CleanSrc s2)
    (h : formatGeomName s1 f1 m1 j1 = formatGeomName s2 f2 m2 j2) :
    s1 = s2 ∧ m1 = m2 ∧ f1 = f2 ∧ j1 = j2 := by
  obtain ⟨hs, hrest⟩ := dcolon_cancel_left h1 h2 h
  obtain ⟨hm, hrest2⟩ :=
    dcolon_cancel_left (cleanSrc_natChars m1) (cleanSrc_natChars m2) hrest
  obtain ⟨hf, hj⟩ :=
    dcolon_cancel_right (fun _ hc => natChars_no_colon hc) (natChars_ne_nil j1)
      (fun _ hc => natChars_no_colon hc) (natChars_ne_nil j2) hrest2
  exact ⟨hs, natChars_inj hm, hf, natChars_inj hj⟩

theorem processGeom_invisible {cfg : Config} {src frame : Chars} {robotNum j : Nat}
    {g : GeomRecord} (halpha : g.color.a = 0) :
    processGeom cfg src frame robotNum j g = ⟨none, none, [], true⟩ := by
  simp [processGeom, halpha]

theorem processGeom_name (cfg : Config) (src frame : Chars) (robotNum j : Nat)
    (g : GeomRecord) :
    (processGeom cfg src frame robotNum j g).name
      = if g.color.a = 0 then none
        else some (formatGeomName src frame robotNum j) := by
  by_cases h : g.color.a = 0
  · simp [processGeom_invisible h, h]
  · rw [if_neg h]
    obtain ⟨ty, pos, q, col, fd, sd⟩ := g
    simp only [processGeom, if_neg h]
    cases ty <;> simp only [] <;> (try split) <;> rfl

theorem processGeom_tf (cfg : Config) (src frame : Chars) (robotNum j : Nat)
    (g : GeomRecord) :
    (processGeom cfg src frame robotNum j g).tf
      = if g.color.a = 0 then none else some (geomLocalTf g) := by
  by_cases h : g.color.a = 0
  · simp [processGeom_invisible h, h]
  · rw [if_neg h]
    obtain ⟨ty, pos, q, col, fd, sd⟩ := g
    simp only [processGeom, if_neg h]
    cases ty <;> simp only [] <;> (try split) <;> rfl

/-- C2: a geometry record whose alpha component is exactly zero produces no
remote calls: its processing inside `load` emits nothing (hence neither a
`register_material` nor a `register_object` call), a link whose only
geometry is such a record caches geometry count 1 with an empty local
transform list, and for a body cached that way the per-tick processing
emits zero `update_parameters` calls (the update loop hits an IndexError
before emitting anything for that body, so its part of the tick also
reports failure). -/
theorem c2_zero_alpha_no_calls (cfg : Config) (src frame : Chars) (robotNum j : Nat)
    (g : GeomRecord) (st : LoadState) (e : PoseEntry)
    (halpha : g.color.a = 0)
    (hn : dictFind st.numGeoms e.name = some 1)
    (ht : dictFind st.localTfs e.name = some []) :
    processGeom cfg src frame robotNum j g = ⟨none, none, [], true⟩
    ∧ processGeoms cfg src frame robotNum j [g] = ⟨[], [], [], true⟩
    ∧ (publishEntry cfg st e).calls = []
    ∧ (publishEntry cfg st e).ok = false := by
  have h1 := @processGeom_invisible cfg src frame robotNum j g halpha
  refine ⟨h1, by simp [processGeoms, h1], ?_, ?_⟩ <;>
  · cases hsp : splitFirst e.name with
    | none => simp [publishEntry, hsp]
    | some p =>
      obtain ⟨s', f'⟩ := p
      simp [publishEntry, hsp, hn, ht, publishLoop]

/-- Witness for C2 at a concrete input: an alpha-zero sphere inside a load,
and a body cached with count 1 and no visible transforms. -/
theorem c2_zero_alpha_no_calls_witness :
    processGeom cfgNil (str "a") (str "b") 0 0 gInvis = ⟨none, none, [], true⟩
    ∧ processGeoms cfgNil (str "a") (str "b") 0 0 [gInvis] = ⟨[], [], [], true⟩
    ∧ (publishEntry cfgNil stInvis entryAB).calls = []
    ∧ (publishEntry cfgNil stInvis entryAB).ok = false :=
  c2_zero_alpha_no_calls cfgNil (str "a") (str "b") 0 0 gInvis stInvis entryAB
    (by decide) (by decide) (by decide)

/-- C3 counterexample: in a load containing a body whose geometry list is
an alpha-zero record followed by a visible box, the visible geometry is
named with index 1 — its raw position in the record list — not with the
index 0 that counting only visible geometries would give; no name with
index 0 is assigned at all. -/
theorem c3_raw_index_counterexample :
    (load cfgNil [linkMixed]).names = [formatGeomName (str "a") (str "b") 0 1]
    ∧ formatGeomName (str "a") (str "b") 0 1 ≠ formatGeomName (str "a") (str "b") 0 0
    ∧ formatGeomName (str "a") (str "b") 0 0 ∉ (load cfgNil [linkMixed]).names := by
  refine ⟨by decide, by decide, by decide⟩

/-- C3 amended: the index component of a derived geometry name is the raw
position of the record in the geometry list (the running loop index `j`);
an alpha-zero record is skipped but its index slot is consumed, so
subsequent visible geometries do not shift down. -/
theorem c3_index_is_raw_position (cfg : Config) (src frame : Chars)
    (robotNum j : Nat) (gs : List GeomRecord)
    (hok : (processGeoms cfg src frame robotNum j gs).ok = true) :
    (processGeoms cfg src frame robotNum j gs).names = rawNames src frame robotNum j gs := by
  induction gs generalizing j with
  | nil => rfl
  | cons g rest ih =>
    by_cases hsok : (processGeom cfg src frame robotNum j g).ok
    · have hstep : processGeoms cfg src frame robotNum j (g :: rest)
          = ⟨(processGeom cfg src frame robotNum j g).name.toList
               ++ (processGeoms cfg src frame robotNum (j + 1) rest).names,
             (processGeom cfg src frame robotNum j g).tf.toList
               ++ (processGeoms cfg src frame robotNum (j + 1) rest).tfs,
             (processGeom cfg src frame robotNum j g).calls
               ++ (processGeoms cfg src frame robotNum (j + 1) rest).calls,
             (processGeoms cfg src frame robotNum (j + 1) rest).ok⟩ := by
        simp [processGeoms, hsok]
      have hok' : (processGeoms cfg src frame robotNum (j + 1) rest).ok = true := by
        rw [hstep] at hok
        exact hok
      rw [hstep]
      show (processGeom cfg src frame robotNum j g).name.toList
          ++ (processGeoms cfg src frame robotNum (j + 1) rest).names
        = rawNames src frame robotNum j (g :: rest)
      rw [ih (j + 1) hok', processGeom_name, rawNames]
      by_cases h : g.color.a = 0 <;> simp [h]
    · have hstep : (processGeoms cfg src frame robotNum j (g :: rest)).ok = false := by
        simp [processGeoms, hsok]
      rw [hstep] at hok
      cases hok

/-- Witness for the amended C3 on the mixed link: the assigned names are
exactly the raw-position names, with the visible box keeping index 1. -/
theorem c3_index_is_raw_position_witness :
    (processGeoms cfgNil (str "a") (str "b") 0 0 [gInvis, gBox]).names
      = rawNames (str "a") (str "b") 0 0 [gInvis, gBox] :=
  c3_index_is_raw_position cfgNil (str "a") (str "b") 0 0 [gInvis, gBox] (by decide)

theorem matCallsFor_append (k : Chars) (a b : List RemoteCall) :
    matCallsFor k (a ++ b) = matCallsFor k a ++ matCallsFor k b := by
  simp [matCallsFor, List.filterMap_append]

theorem matCallsFor_nil (k : Chars) : matCallsFor k [] = [] := rfl

theorem matCallsFor_cons_mat (k : Chars) (p : MatParams) (cs : List RemoteCall) :
    matCallsFor k (RemoteCall.registerMaterial k p :: cs) = p :: matCallsFor k cs := by
  simp [matCallsFor]

theorem matCallsFor_cons_obj (k n t : Chars) (s : ScaleArg) (loc : Vec3) (q : Quat)
    (m : Chars) (pth : Option Chars) (cs : List RemoteCall) :
    matCallsFor k (RemoteCall.registerObject n t s loc q m pth :: cs)
      = matCallsFor k cs := by
  simp [matCallsFor]

theorem matCallsFor_override_map (k : Chars) (l : List OvrParams) :
    matCallsFor k (l.map (fun p => RemoteCall.registerMaterial k (MatParams.override p)))
      = l.map MatParams.override := by
  induction l with
  | nil => rfl
  | cons p t ih =>
    rw [List.map_cons, matCallsFor_cons_mat, ih, List.map_cons]

theorem regObjNames_nil : registeredObjNames [] = [] := rfl

theorem regObjNames_cons_mat (k : Chars) (p : MatParams) (cs : List RemoteCall) :
    registeredObjNames (RemoteCall.registerMaterial k p :: cs)
      = registeredObjNames cs := by
  simp [registeredObjNames]

theorem regObjNames_override_map (k : Chars) (l : List OvrParams) :
    registeredObjNames
        (l.map (fun p => RemoteCall.registerMaterial k (MatParams.override p)))
      = [] := by
  induction l with
  | nil => rfl
  | cons p t ih => rw [List.map_cons, regObjNames_cons_mat, ih]

/-- C4 counterexample: with the overlapping rules `[(.*box.*, parM1),
(.*, parM2)]` and a geometry whose derived name contains `box`, the load
issues two `register_material` calls for the material key of that
geometry — the first with the parameters of the first rule, the second
with the parameters of the second — so exactly one call with the first
matching parameters is not what happens, and a later matching rule is
applied. -/
theorem c4_first_match_counterexample :
    matCallsFor (str "material_" ++ formatGeomName (str "foo") (str "box") 0 0)
        (load cfgOvr [linkFooBox]).calls
      = [MatParams.override parM1, MatParams.override parM2]
    ∧ parM1 ≠ parM2 := by
  refine ⟨by decide, by decide⟩

/-- C4 amended: every override rule whose pattern matches the derived name
issues one `register_material` call, in declaration order (there is no
break after the first match), so the sequence of material registrations
for the geometry key equals the parameter payloads of all matching rules;
no texture or flat-color registration is added when at least one rule
matches. -/
theorem c4_all_matching_rules_register (cfg : Config) (src frame : Chars)
    (robotNum j : Nat) (g : GeomRecord)
    (halpha : g.color.a ≠ 0)
    (hovr : matchingOverrides cfg (formatGeomName src frame robotNum j) ≠ []) :
    matCallsFor (str "material_" ++ formatGeomName src frame robotNum j)
        (processGeom cfg src frame robotNum j g).calls
      = (matchingOverrides cfg (formatGeomName src frame robotNum j)).map
          MatParams.override := by
  have hne : (matchingOverrides cfg (formatGeomName src frame robotNum j)).isEmpty
      = false := by
    cases hmm : matchingOverrides cfg (formatGeomName src frame robotNum j) with
    | nil => exact absurd hmm hovr
    | cons a t => simp
  cases hty : g.type with
  | box =>
    by_cases hl : g.floatData.length = 3 <;>
      simp [processGeom, halpha, hty, hl, hne, matCallsFor_append,
        matCallsFor_override_map, matCallsFor_cons_obj, matCallsFor_nil]
  | sphere =>
    by_cases hl : g.floatData.length = 1 <;>
      simp [processGeom, halpha, hty, hl, hne, matCallsFor_append,
        matCallsFor_override_map, matCallsFor_cons_obj, matCallsFor_nil]
  | cylinder =>
    by_cases hl : g.floatData.length = 2 <;>
      simp [processGeom, halpha, hty, hl, hne, matCallsFor_append,
        matCallsFor_override_map, matCallsFor_cons_obj, matCallsFor_nil]
  | mesh =>
    simp [processGeom, halpha, hty, hne, matCallsFor_append,
      matCallsFor_override_map, matCallsFor_cons_obj, matCallsFor_nil]
  | unsup tag2 =>
    simp [processGeom, halpha, hty, hne, matCallsFor_append,
      matCallsFor_override_map, matCallsFor_cons_obj, matCallsFor_nil]

/-- Witness for the amended C4: the overlapping-rule configuration applied
to the box geometry registers both matching materials, in declaration
order. -/
theorem c4_all_matching_rules_register_witness :
    matCallsFor (str "material_" ++ formatGeomName (str "foo") (str "box") 0 0)
        (processGeom cfgOvr (str "foo") (str "box") 0 0 gBox).calls
      = [MatParams.override parM1, MatParams.override parM2] := by
  have h := c4_all_matching_rules_register cfgOvr (str "foo") (str "box") 0 0 gBox
    (by decide) (by decide)
  rw [h]
  decide

/-- C10: a visible geometry with an unrecognized kind still appends its
local transform to the cached per-body list, still registers a material
for every matching override rule, yet registers no render object and does
not abort the load — so the cached transform list holds an entry for an
object the renderer never saw. -/
theorem c10_unsupported_geom_cached (cfg : Config) (src frame : Chars)
    (robotNum j tag : Nat) (g : GeomRecord)
    (halpha : g.color.a ≠ 0) (htype : g.type = GeomType.unsup tag)
    (hovr : matchingOverrides cfg (formatGeomName src frame robotNum j) ≠ []) :
    (processGeom cfg src frame robotNum j g).tf = some (geomLocalTf g)
    ∧ matCallsFor (str "material_" ++ formatGeomName src frame robotNum j)
        (processGeom cfg src frame robotNum j g).calls
      = (matchingOverrides cfg (formatGeomName src frame robotNum j)).map
          MatParams.override
    ∧ registeredObjNames (processGeom cfg src frame robotNum j g).calls = []
    ∧ (processGeom cfg src frame robotNum j g).ok = true := by
  refine ⟨by rw [processGeom_tf, if_neg halpha],
          c4_all_matching_rules_register cfg src frame robotNum j g halpha hovr,
          ?_, ?_⟩ <;>
    simp [processGeom, halpha, htype, regObjNames_override_map]

/-- Witness for C10: an unrecognized kind tag with the catch-all override
rule. -/
theorem c10_unsupported_geom_cached_witness :
    (processGeom cfgAll (str "a") (str "b") 0 0 gUnsup).tf = some (geomLocalTf gUnsup)
    ∧ matCallsFor (str "material_" ++ formatGeomName (str "a") (str "b") 0 0)
        (processGeom cfgAll (str "a") (str "b") 0 0 gUnsup).calls
      = [MatParams.override parM2]
    ∧ registeredObjNames (processGeom cfgAll (str "a") (str "b") 0 0 gUnsup).calls = []
    ∧ (processGeom cfgAll (str "a") (str "b") 0 0 gUnsup).ok = true := by
  have h := c10_unsupported_geom_cached cfgAll (str "a") (str "b") 0 0 7 gUnsup
    (by decide) (by decide) (by decide)
  refine ⟨h.1, ?_, h.2.2.1, h.2.2.2⟩
  rw [h.2.1]
  decide

/-- C8: a mesh geometry whose derived name matches no override rule and
whose sibling png texture does not exist falls back to a flat-color
material built from the geometry color, without raising: the branch
completes and registers exactly that one material for the geometry key. -/
theorem c8_missing_texture_flat_color (cfg : Config) (src frame : Chars)
    (robotNum j : Nat) (g : GeomRecord)
    (halpha : g.color.a ≠ 0) (hmesh : g.type = GeomType.mesh)
    (hovr : matchingOverrides cfg (formatGeomName src frame robotNum j) = [])
    (htex : cfg.pathExists (dropRight3 g.stringData ++ str "png") = false) :
    (processGeom cfg src frame robotNum j g).ok = true
    ∧ matCallsFor (str "material_" ++ formatGeomName src frame robotNum j)
        (processGeom cfg src frame robotNum j g).calls
      = [MatParams.flatColor g.color] := by
  constructor <;>
    simp [processGeom, halpha, hmesh, hovr, htex, matCallsFor_append,
      matCallsFor_cons_mat, matCallsFor_cons_obj, matCallsFor_nil]

/-- Witness for C8: a concrete mesh with no overrides and no texture file
present. -/
theorem c8_missing_texture_flat_color_witness :
    (processGeom cfgNil (str "a") (str "b") 0 0 gMesh).ok = true
    ∧ matCallsFor (str "material_" ++ formatGeomName (str "a") (str "b") 0 0)
        (processGeom cfgNil (str "a") (str "b") 0 0 gMesh).calls
      = [MatParams.flatColor gMesh.color] :=
  c8_missing_texture_flat_color cfgNil (str "a") (str "b") 0 0 gMesh
    (by decide) (by decide) (by decide) (by decide)

/-- C1 is violated by the code: loading a body whose geometry list is an
alpha-zero record followed by a visible box registers exactly the object
name with raw index 1, while the first tick then addresses its single
update call to the never-registered raw index 0 and aborts with an
IndexError before updating the registered object — the update stream does
not match the registration stream in set or order. -/
theorem c1_update_mismatch_eval :
    (load cfgNil [linkMixed]).state.isSome = true
    ∧ registeredObjNames (load cfgNil [linkMixed]).calls
        = [str "obj_" ++ formatGeomName (str "a") (str "b") 0 1]
    ∧ updateNames (doPublish cfgNil stMixed 0 [entryAB]).calls
        = [str "obj_" ++ formatGeomName (str "a") (str "b") 0 0]
    ∧ (doPublish cfgNil stMixed 0 [entryAB]).ok = false
    ∧ (str "obj_" ++ formatGeomName (str "a") (str "b") 0 0)
        ∉ registeredObjNames (load cfgNil [linkMixed]).calls := by
  refine ⟨by decide, by decide, by decide, by decide, by decide⟩

theorem publishLoop_range (cfg : Config) (src frame : Chars) (modelId : Nat)
    (pose : RigidTf) (tfs : List RigidTf) :
    ∀ (k j : Nat), j + k ≤ tfs.length →
    publishLoop cfg src frame modelId pose tfs j k
      = ⟨(List.range k).map (fun i =>
          RemoteCall.updateParameters
            (str "obj_" ++ formatGeomName src frame modelId (j + i))
            ((cfg.globalTransform.comp (pose.comp (tfs.getD (j + i) RigidTf.one))).trans)
            ((cfg.globalTransform.comp (pose.comp (tfs.getD (j + i) RigidTf.one))).rot)),
         true⟩ := by
  intro k
  induction k with
  | zero => intro j _; rfl
  | succ k ih =>
    intro j h
    have hj : j < tfs.length := by omega
    have h1 : tfs[j]? = some (tfs.getD j RigidTf.one) := by
      rw [List.getD_eq_getElem?_getD, List.getElem?_eq_getElem hj]
      rfl
    have hshift : ∀ i : Nat, j + 1 + i = j + (i + 1) := by omega
    simp only [publishLoop, h1]
    rw [ih (j + 1) (by omega)]
    simp only [List.range_succ_eq_map, List.map_cons, List.map_map, Function.comp_def,
      Nat.add_zero, Nat.succ_eq_add_one, hshift]

/-- C5: on a tick, the pose carried by each update call is the composition
`global_transform * body_world_transform * geometry_local_transform`.
First part: when every geometry of a link is visible (and the load loop
completed for it), the cached local-transform list is exactly the list of
per-record local transforms, in record order.  Second part: the update
calls emitted for a pose-bundle entry are, in order, one call per cached
index `j`, addressed to the derived name with index `j` and carrying the
translation and rotation of `global * pose * local_j`. -/
theorem c5_update_pose_composition :
    (∀ (cfg : Config) (src frame : Chars) (robotNum j : Nat) (gs : List GeomRecord),
      (∀ g ∈ gs, g.color.a ≠ 0) →
      (processGeoms cfg src frame robotNum j gs).ok = true →
      (processGeoms cfg src frame robotNum j gs).tfs = gs.map geomLocalTf)
    ∧ (∀ (cfg : Config) (st : LoadState) (e : PoseEntry) (src frame : Chars)
        (n : Nat) (tfs : List RigidTf),
      splitFirst e.name = some (src, frame) →
      dictFind st.numGeoms e.name = some n →
      dictFind st.localTfs e.name = some tfs →
      n ≤ tfs.length →
      (publishEntry cfg st e).calls
        = (List.range n).map (fun j =>
            RemoteCall.updateParameters
              (str "obj_" ++ formatGeomName src frame e.modelId j)
              ((cfg.globalTransform.comp (e.pose.comp (tfs.getD j RigidTf.one))).trans)
              ((cfg.globalTransform.comp (e.pose.comp (tfs.getD j RigidTf.one))).rot))) := by
  constructor
  · intro cfg src frame robotNum j gs
    induction gs generalizing j with
    | nil => intro _ _; rfl
    | cons g rest ih =>
      intro hvis hok
      have halpha : g.color.a ≠ 0 := hvis g (by simp)
      by_cases hsok : (processGeom cfg src frame robotNum j g).ok
      · have hstep : (processGeoms cfg src frame robotNum j (g :: rest)).tfs
            = (processGeom cfg src frame robotNum j g).tf.toList
              ++ (processGeoms cfg src frame robotNum (j + 1) rest).tfs := by
          simp [processGeoms, hsok]
        have hok' : (processGeoms cfg src frame robotNum (j + 1) rest).ok = true := by
          simp only [processGeoms, hsok, if_true] at hok
          exact hok
        rw [hstep, processGeom_tf, if_neg halpha,
          ih (j + 1) (fun g' hg' => hvis g' (by simp [hg'])) hok']
        rfl
      · exfalso
        simp [processGeoms, hsok] at hok
  · intro cfg st e src frame n tfs hsp hn ht hlen
    simp only [publishEntry, hsp, hn, ht]
    rw [publishLoop_range cfg src frame e.modelId e.pose tfs n 0 (by omega)]
    simp only [Nat.zero_add]

/-- Witness for C5, the scenario of the claim: one box body with alpha 1
at local identity, body world transform a translation by (1,0,0), global
transform the identity; the single update call addresses the body's only
geometry and carries location exactly (1,0,0) with the identity rotation
(whose unit quaternion is the identity quaternion). -/
theorem c5_update_pose_composition_witness :
    (publishEntry cfgNil stBox entryAB).calls
      = [RemoteCall.updateParameters
          (str "obj_" ++ formatGeomName (str "a") (str "b") 0 0)
          ⟨1, 0, 0⟩ Mat3.one] := by
  have hA := c5_update_pose_composition.1 cfgNil (str "a") (str "b") 0 0 [gBox]
    (by decide) (by decide)
  have hB := c5_update_pose_composition.2 cfgNil stBox entryAB (str "a") (str "b") 1
    ((processGeoms cfgNil (str "a") (str "b") 0 0 [gBox]).tfs)
    (by decide) (by decide) (by rfl) (by rw [hA]; decide)
  rw [hA] at hB
  rw [hB]
  simp only [List.range_succ, List.range_zero, List.map_cons, List.map_nil,
    List.nil_append, List.getD_cons_zero]
  norm_num [geomLocalTf, quatToMat3, gBox, RigidTf.comp, Mat3.mul, Mat3.mulVec,
    Vec3.add, Mat3.one, RigidTf.one, cfgNil, entryAB, tfX]

theorem countP_processGeom (q : RemoteCall → Bool)
    (hm : ∀ n p, q (RemoteCall.registerMaterial n p) = false)
    (ho : ∀ n t s l qq m pth, q (RemoteCall.registerObject n t s l qq m pth) = false)
    (cfg : Config) (src frame : Chars) (robotNum j : Nat) (g : GeomRecord) :
    (processGeom cfg src frame robotNum j g).calls.countP q = 0 := by
  by_cases halpha : g.color.a = 0
  · rw [processGeom_invisible halpha]
    rfl
  · cases hty : g.type <;>
      simp only [processGeom, if_neg halpha, hty] <;>
      (repeat' split) <;>
      simp [List.countP_append, List.countP_cons, List.countP_map, hm, ho,
        Function.comp_def]

theorem countP_processGeoms (q : RemoteCall → Bool)
    (hm : ∀ n p, q (RemoteCall.registerMaterial n p) = false)
    (ho : ∀ n t s l qq m pth, q (RemoteCall.registerObject n t s l qq m pth) = false)
    (cfg : Config) (src frame : Chars) (robotNum : Nat) :
    ∀ (j : Nat) (gs : List GeomRecord),
    (processGeoms cfg src frame robotNum j gs).calls.countP q = 0
  | _, [] => rfl
  | j, g :: rest => by
    by_cases hsok : (processGeom cfg src frame robotNum j g).ok <;>
      simp [processGeoms, hsok, List.countP_append,
        countP_processGeom q hm ho cfg src frame robotNum j g,
        countP_processGeoms q hm ho cfg src frame robotNum (j + 1) rest]

theorem countP_cameraCalls (q : RemoteCall → Bool)
    (hc : ∀ n tf a, q (RemoteCall.registerCamera n tf a) = false)
    (hcr : ∀ n rx ry ff, q (RemoteCall.configureRendering n rx ry ff) = false)
    (cfg : Config) : ∀ (i : Nat) (tfs : List RigidTf),
    (cameraCalls cfg i tfs).countP q = 0
  | _, [] => rfl
  | i, tf :: rest => by
    simp [cameraCalls, List.countP_cons, hc, hcr,
      countP_cameraCalls q hc hcr cfg (i + 1) rest]

theorem countP_loadLinks (q : RemoteCall → Bool)
    (hm : ∀ n p, q (RemoteCall.registerMaterial n p) = false)
    (ho : ∀ n t s l qq m pth, q (RemoteCall.registerObject n t s l qq m pth) = false)
    (cfg : Config) : ∀ (msg : List LinkRecord),
    (loadLinks cfg msg).calls.countP q = 0
  | [] => rfl
  | l :: rest => by
    cases hsp : splitFirst l.name with
    | none => simp [loadLinks, hsp]
    | some p =>
      obtain ⟨src, frame⟩ := p
      by_cases hsok : (processGeoms cfg src frame l.robotNum 0 l.geoms).ok
      · cases hst : (loadLinks cfg rest).state <;>
          simp [loadLinks, hsp, hsok, hst, List.countP_append,
            countP_processGeoms q hm ho cfg src frame l.robotNum 0 l.geoms,
            countP_loadLinks q hm ho cfg rest]
      · simp [loadLinks, hsp, hsok,
          countP_processGeoms q hm ho cfg src frame l.robotNum 0 l.geoms]

theorem countP_load (q : RemoteCall → Bool)
    (hi : q RemoteCall.initScene = false)
    (hm : ∀ n p, q (RemoteCall.registerMaterial n p) = false)
    (ho : ∀ n t s l qq m pth, q (RemoteCall.registerObject n t s l qq m pth) = false)
    (hc : ∀ n tf a, q (RemoteCall.registerCamera n tf a) = false)
    (hcr : ∀ n rx ry ff, q (RemoteCall.configureRendering n rx ry ff) = false)
    (he : ∀ pth, q (RemoteCall.setEnvironmentMap pth) = false)
    (cfg : Config) (msg : List LinkRecord) :
    (load cfg msg).calls.countP q = 0 := by
  cases hst : (loadLinks cfg msg).state <;>
    simp [load, hst, List.countP_cons, List.countP_append, hi, he,
      countP_loadLinks q hm ho cfg msg, countP_cameraCalls q hc hcr cfg 0 cfg.cameraTfs]

theorem countP_publishLoop (q : RemoteCall → Bool)
    (hu : ∀ n l r, q (RemoteCall.updateParameters n l r) = false)
    (cfg : Config) (src frame : Chars) (modelId : Nat) (pose : RigidTf)
    (tfs : List RigidTf) : ∀ (k j : Nat),
    (publishLoop cfg src frame modelId pose tfs j k).calls.countP q = 0
  | 0, _ => rfl
  | k + 1, j => by
    cases htf : tfs[j]? with
    | none => simp [publishLoop, htf]
    | some tf =>
      simp [publishLoop, htf, List.countP_cons, hu,
        countP_publishLoop q hu cfg src frame modelId pose tfs k (j + 1)]

theorem countP_publishEntry (q : RemoteCall → Bool)
    (hu : ∀ n l r, q (RemoteCall.updateParameters n l r) = false)
    (cfg : Config) (st : LoadState) (e : PoseEntry) :
    (publishEntry cfg st e).calls.countP q = 0 := by
  cases hsp : splitFirst e.name with
  | none => simp [publishEntry, hsp]
  | some p =>
    obtain ⟨src, frame⟩ := p
    cases hn : dictFind st.numGeoms e.name with
    | none => simp [publishEntry, hsp, hn]
    | some n =>
      cases ht : dictFind st.localTfs e.name with
      | none => simp [publishEntry, hsp, hn, ht]
      | some tfs =>
        simp [publishEntry, hsp, hn, ht,
          countP_publishLoop q hu cfg src frame e.modelId e.pose tfs n 0]

theorem countP_publishEntries (q : RemoteCall → Bool)
    (hu : ∀ n l r, q (RemoteCall.updateParameters n l r) = false)
    (cfg : Config) (st : LoadState) : ∀ (b : List PoseEntry),
    (publishEntries cfg st b).calls.countP q = 0
  | [] => rfl
  | e :: rest => by
    by_cases hok : (publishEntry cfg st e).ok <;>
      simp [publishEntries, hok, List.countP_append,
        countP_publishEntry q hu cfg st e,
        countP_publishEntries q hu cfg st rest]

theorem countP_renderCalls (q : RemoteCall → Bool)
    (hr : ∀ n i p, q (RemoteCall.camRender n i p) = false)
    (pubNum : Nat) : ∀ (i : Nat) (tfs : List RigidTf),
    (renderCalls pubNum i tfs).countP q = 0
  | _, [] => rfl
  | i, tf :: rest => by
    simp [renderCalls, List.countP_cons, hr,
      countP_renderCalls q hr pubNum (i + 1) rest]

theorem countSaves_doPublish (cfg : Config) (st : LoadState) (pubNum : Nat)
    (bundle : List PoseEntry) (hok : (doPublish cfg st pubNum bundle).ok = true) :
    countSaves (doPublish cfg st pubNum bundle).calls
      = if pubNum = 0 then 1 else 0 := by
  by_cases hpe : (publishEntries cfg st bundle).ok
  · simp only [doPublish, hpe, if_true]
    simp only [countSaves, List.countP_append,
      countP_publishEntries isSaveCall (fun _ _ _ => rfl) cfg st bundle,
      countP_renderCalls isSaveCall (fun _ _ _ => rfl) pubNum 0 cfg.cameraTfs]
    by_cases hp : pubNum = 0 <;> simp [hp, List.countP_cons, isSaveCall]
  · exfalso
    simp [doPublish, hpe] at hok

theorem runTicks_saves (cfg : Config) (st : LoadState) :
    ∀ (ts : List (List PoseEntry)) (p : Nat) (segs : List (List RemoteCall)),
    runTicks cfg st p ts = (segs, true) →
    segs.length = ts.length
    ∧ (∀ (k : Nat) (seg : List RemoteCall), segs[k]? = some seg →
        countSaves seg = if p + k = 0 then 1 else 0)
    ∧ countSaves segs.flatten = (if ts.length = 0 then 0 else if p = 0 then 1 else 0)
  | [], p, segs => by
    intro h
    simp only [runTicks] at h
    obtain ⟨rfl, -⟩ : segs = [] ∧ True := by
      refine ⟨?_, trivial⟩
      have := congrArg Prod.fst h
      exact this.symm
    simp [countSaves]
  | b :: rest, p, segs => by
    intro h
    by_cases hok : (doPublish cfg st p b).ok
    · simp only [runTicks, hok, if_true] at h
      have hsegs : (doPublish cfg st p b).calls :: (runTicks cfg st (p + 1) rest).1
          = segs := congrArg Prod.fst h
      have hok2 : (runTicks cfg st (p + 1) rest).2 = true := congrArg Prod.snd h
      have hrec : runTicks cfg st (p + 1) rest
          = ((runTicks cfg st (p + 1) rest).1, true) := by
        rw [← hok2]
      obtain ⟨hlen, hseg, hflat⟩ :=
        runTicks_saves cfg st rest (p + 1) (runTicks cfg st (p + 1) rest).1 hrec
      subst hsegs
      refine ⟨by simp [hlen], ?_, ?_⟩
      · intro k seg hk
        match k, hk with
        | 0, hk =>
          have : (doPublish cfg st p b).calls = seg := by simpa using hk
          subst this
          simpa using countSaves_doPublish cfg st p b hok
        | k + 1, hk =>
          have hk' : (runTicks cfg st (p + 1) rest).1[k]? = some seg := by
            simpa using hk
          rw [hseg k seg hk', if_neg (by omega), if_neg (by omega)]
      · simp only [List.flatten_cons, countSaves, List.countP_append]
        have h1 : countSaves (doPublish cfg st p b).calls
            = if p = 0 then 1 else 0 := countSaves_doPublish cfg st p b hok
        simp only [countSaves] at h1 hflat
        rw [h1, hflat]
        by_cases hr : rest.length = 0 <;> by_cases hp : p = 0 <;>
          simp [hr, hp, if_neg (by omega : ¬(p + 1 = 0))]
    · exfalso
      simp only [runTicks, hok, if_false] at h
      have := congrArg Prod.snd h
      simp at this

/-- C7: the `save_current_scene` remote call is gated on the publish
counter: across a session of more than one tick that runs without an
exception, the load emits no save, the tick whose counter is 0 emits
exactly one, every later tick emits none, and the whole session stream
holds exactly one. -/
theorem c7_save_scene_first_tick_only (cfg : Config) (msg : List LinkRecord)
    (st : LoadState) (ticks : List (List PoseEntry)) (segs : List (List RemoteCall))
    (hload : (load cfg msg).state = some st)
    (hrun : runTicks cfg st 0 ticks = (segs, true))
    (hN : 1 < ticks.length) :
    countSaves (load cfg msg).calls = 0
    ∧ segs.length = ticks.length
    ∧ (∀ (k : Nat) (seg : List RemoteCall), segs[k]? = some seg →
        countSaves seg = if k = 0 then 1 else 0)
    ∧ countSaves (session cfg msg ticks).1 = 1 := by
  obtain ⟨hlen, hseg, hflat⟩ := runTicks_saves cfg st ticks 0 segs hrun
  have hload0 : countSaves (load cfg msg).calls = 0 :=
    countP_load isSaveCall rfl (fun _ _ => rfl) (fun _ _ _ _ _ _ _ => rfl)
      (fun _ _ _ => rfl) (fun _ _ _ _ => rfl) (fun _ => rfl) cfg msg
  refine ⟨hload0, hlen, ?_, ?_⟩
  · intro k seg hk
    simpa using hseg k seg hk
  · simp only [session, hload]
    rw [hrun]
    simp only [countSaves, List.countP_append]
    simp only [countSaves] at hload0 hflat
    rw [hload0, hflat, if_neg (by omega)]
    simp

/-- Witness for C7: a two-tick session over the single-box load; the
session stream holds exactly one save, in the first tick. -/
theorem c7_save_scene_first_tick_only_witness :
    countSaves (load cfgNil [linkBox]).calls = 0
    ∧ ((runTicks cfgNil stBox 0 ticks2).1).length = 2
    ∧ countSaves (session cfgNil [linkBox] ticks2).1 = 1
    ∧ countSaves (((runTicks cfgNil stBox 0 ticks2).1).getD 0 []) = 1
    ∧ countSaves (((runTicks cfgNil stBox 0 ticks2).1).getD 1 []) = 0 := by
  have h := c7_save_scene_first_tick_only cfgNil [linkBox] stBox ticks2
    (runTicks cfgNil stBox 0 ticks2).1 (by rfl) (by rfl) (by decide)
  refine ⟨h.1, by rw [h.2.1]; rfl, h.2.2.2, ?_, ?_⟩
  · have := h.2.2.1 0 (((runTicks cfgNil stBox 0 ticks2).1).getD 0 []) (by rfl)
    simpa using this
  · have := h.2.2.1 1 (((runTicks cfgNil stBox 0 ticks2).1).getD 1 []) (by rfl)
    simpa using this

theorem matBeforeObj_nil : MatBeforeObj [] := by
  intro i k c hi _
  simp at hi

theorem matBeforeObj_noObj {l : List RemoteCall}
    (h : ∀ c ∈ l, objMatKey c = none) : MatBeforeObj l := by
  intro i k c hi hk
  rw [h c (List.getElem?_mem hi)] at hk
  cases hk

theorem matBeforeObj_append {a b : List RemoteCall}
    (ha : MatBeforeObj a) (hb : MatBeforeObj b) : MatBeforeObj (a ++ b) := by
  intro i k c hi hk
  by_cases him : i < a.length
  · rw [List.getElem?_append, if_pos him] at hi
    obtain ⟨m, p, hm, hmp⟩ := ha i k c hi hk
    exact ⟨m, p, hm, by rw [List.getElem?_append, if_pos (by omega)]; exact hmp⟩
  · have hle : a.length ≤ i := by omega
    rw [List.getElem?_append_right hle] at hi
    obtain ⟨m, p, hm, hmp⟩ := hb (i - a.length) k c hi hk
    refine ⟨a.length + m, p, by omega, ?_⟩
    rw [List.getElem?_append_right (by omega)]
    simpa [Nat.add_sub_cancel_left] using hmp

theorem matBeforeObj_cons {x : RemoteCall} {l : List RemoteCall}
    (hx : objMatKey x = none) (hl : MatBeforeObj l) : MatBeforeObj (x :: l) := by
  rw [← List.singleton_append]
  exact matBeforeObj_append (matBeforeObj_noObj (by simpa using hx)) hl

/-- Block shape of one geometry: material calls first, at most one object
call last, the object key registered among the materials. -/
theorem matBeforeObj_mats_obj {M : List RemoteCall} {o : RemoteCall}
    (hM : ∀ c ∈ M, objMatKey c = none)
    (hmem : ∀ k, objMatKey o = some k →
      ∃ (m : Nat) (p : MatParams), M[m]? = some (RemoteCall.registerMaterial k p)) :
    MatBeforeObj (M ++ [o]) := by
  intro i k c hi hk
  by_cases him : i < M.length
  · rw [List.getElem?_append, if_pos him] at hi
    rw [hM c (List.getElem?_mem hi)] at hk
    cases hk
  · have hle : M.length ≤ i := by omega
    have hlen : i < M.length + 1 := by
      have := (List.getElem?_eq_some.mp hi).1
      simpa using this
    have hieq : i = M.length := by omega
    subst hieq
    rw [List.getElem?_append_right hle] at hi
    simp at hi
    subst hi
    obtain ⟨m, p, hmp⟩ := hmem k hk
    have hmlt : m < M.length := by
      have := (List.getElem?_eq_some.mp hmp).1
      exact this
    refine ⟨m, p, hmlt, ?_⟩
    rw [List.getElem?_append, if_pos hmlt]
    exact hmp

theorem objMatKey_override_map {cfg : Config} {name matKey : Chars} :
    ∀ c ∈ (matchingOverrides cfg name).map
      (fun p => RemoteCall.registerMaterial matKey (MatParams.override p)),
    objMatKey c = none := by
  intro c hc
  obtain ⟨p, -, rfl⟩ := List.mem_map.mp hc
  rfl

theorem processGeom_matBeforeObj (cfg : Config) (src frame : Chars)
    (robotNum j : Nat) (g : GeomRecord) :
    MatBeforeObj (processGeom cfg src frame robotNum j g).calls := by
  by_cases halpha : g.color.a = 0
  · rw [processGeom_invisible halpha]
    exact matBeforeObj_nil
  · have hfb : ∀ (cond : Bool) (key : Chars) (col : Rgba),
        ∀ c ∈ (if cond then ([] : List RemoteCall)
          else [RemoteCall.registerMaterial key (MatParams.flatColor col)]),
        objMatKey c = none := by
      intro cond key col c hc
      cases cond <;> simp at hc <;> simp [hc, objMatKey]
    have htex : ∀ (cond : Bool) (key pth : Chars),
        ∀ c ∈ (if cond then [RemoteCall.registerMaterial key (MatParams.colorTexture pth)]
          else ([] : List RemoteCall)),
        objMatKey c = none := by
      intro cond key pth c hc
      cases cond <;> simp at hc <;> simp [hc, objMatKey]
    have hkey : ∀ (key : Chars) (l : List OvrParams) (extra : List RemoteCall),
        (l.map (fun p => RemoteCall.registerMaterial key (MatParams.override p))).isEmpty
            = false ∨ (∃ p, extra = [RemoteCall.registerMaterial key p]) →
        ∃ (m : Nat) (p : MatParams),
          ((l.map (fun p => RemoteCall.registerMaterial key (MatParams.override p))
            ++ extra))[m]? = some (RemoteCall.registerMaterial key p) := by
      intro key l extra h
      rcases h with h | ⟨p, rfl⟩
      · cases l with
        | nil => simp at h
        | cons a t => exact ⟨0, MatParams.override a, by simp⟩
      · cases l with
        | nil => exact ⟨0, p, by simp⟩
        | cons a t => exact ⟨0, MatParams.override a, by simp⟩
    cases hty : g.type with
    | unsup tag =>
      simp only [processGeom, if_neg halpha, hty]
      exact matBeforeObj_noObj objMatKey_override_map
    | box =>
      by_cases hl : g.floatData.length = 3
      · simp only [processGeom, if_neg halpha, hty, if_pos hl]
        apply matBeforeObj_mats_obj
        · intro c hc
          rcases List.mem_append.mp hc with hc | hc
          · exact objMatKey_override_map c hc
          · exact hfb _ _ _ c hc
        · intro k hk
          simp only [objMatKey] at hk
          injection hk with hk
          subst hk
          apply hkey
          by_cases hm : (matchingOverrides cfg
              (formatGeomName src frame robotNum j)) = []
          · right
            refine ⟨MatParams.flatColor g.color, ?_⟩
            simp [hm]
          · left
            cases hmm : matchingOverrides cfg (formatGeomName src frame robotNum j) with
            | nil => exact absurd hmm hm
            | cons a t => simp
      · simp only [processGeom, if_neg halpha, hty, if_neg hl]
        exact matBeforeObj_noObj objMatKey_override_map
    | sphere =>
      by_cases hl : g.floatData.length = 1
      · simp only [processGeom, if_neg halpha, hty, if_pos hl]
        apply matBeforeObj_mats_obj
        · intro c hc
          rcases List.mem_append.mp hc with hc | hc
          · exact objMatKey_override_map c hc
          · exact hfb _ _ _ c hc
        · intro k hk
          simp only [objMatKey] at hk
          injection hk with hk
          subst hk
          apply hkey
          by_cases hm : (matchingOverrides cfg
              (formatGeomName src frame robotNum j)) = []
          · right
            refine ⟨MatParams.flatColor g.color, ?_⟩
            simp [hm]
          · left
            cases hmm : matchingOverrides cfg (formatGeomName src frame robotNum j) with
            | nil => exact absurd hmm hm
            | cons a t => simp
      · simp only [processGeom, if_neg halpha, hty, if_neg hl]
        exact matBeforeObj_noObj objMatKey_override_map
    | cylinder =>
      by_cases hl : g.floatData.length = 2
      · simp only [processGeom, if_neg halpha, hty, if_pos hl]
        apply matBeforeObj_mats_obj
        · intro c hc
          rcases List.mem_append.mp hc with hc | hc
          · exact objMatKey_override_map c hc
          · exact hfb _ _ _ c hc
        · intro k hk
          simp only [objMatKey] at hk
          injection hk with hk
          subst hk
          apply hkey
          by_cases hm : (matchingOverrides cfg
              (formatGeomName src frame robotNum j)) = []
          · right
            refine ⟨MatParams.flatColor g.color, ?_⟩
            simp [hm]
          · left
            cases hmm : matchingOverrides cfg (formatGeomName src frame robotNum j) with
            | nil => exact absurd hmm hm
            | cons a t => simp
      · simp only [processGeom, if_neg halpha, hty, if_neg hl]
        exact matBeforeObj_noObj objMatKey_override_map
    | mesh =>
      simp only [processGeom, if_neg halpha, hty]
      apply matBeforeObj_mats_obj
      · intro c hc
        rcases List.mem_append.mp hc with hc | hc
        · rcases List.mem_append.mp hc with hc | hc
          · exact objMatKey_override_map c hc
          · exact htex _ _ _ c hc
        · exact hfb _ _ _ c hc
      · intro k hk
        simp only [objMatKey] at hk
        injection hk with hk
        subst hk
        by_cases hm : (matchingOverrides cfg
            (formatGeomName src frame robotNum j)) = []
        · simp only [hm, List.map_nil, List.isEmpty_nil, Bool.not_true, List.nil_append]
          by_cases hpe : cfg.pathExists
              (dropRight3 g.stringData ++ str "png") = true
          · refine ⟨0, MatParams.colorTexture (dropRight3 g.stringData ++ str "png"), ?_⟩
            simp [hpe]
          · have hpe' : cfg.pathExists (dropRight3 g.stringData ++ str "png") = false := by
              simpa using hpe
            refine ⟨0, MatParams.flatColor g.color, ?_⟩
            simp [hpe', remoteCallSucceeds]
        · cases hmm : matchingOverrides cfg (formatGeomName src frame robotNum j) with
          | nil => exact absurd hmm hm
          | cons a t => exact ⟨0, MatParams.override a, by simp [hmm]⟩

theorem processGeoms_matBeforeObj (cfg : Config) (src frame : Chars) (robotNum : Nat) :
    ∀ (j : Nat) (gs : List GeomRecord),
    MatBeforeObj (processGeoms cfg src frame robotNum j gs).calls
  | _, [] => matBeforeObj_nil
  | j, g :: rest => by
    by_cases hsok : (processGeom cfg src frame robotNum j g).ok
    · have : (processGeoms cfg src frame robotNum j (g :: rest)).calls
          = (processGeom cfg src frame robotNum j g).calls
            ++ (processGeoms cfg src frame robotNum (j + 1) rest).calls := by
        simp [processGeoms, hsok]
      rw [this]
      exact matBeforeObj_append (processGeom_matBeforeObj cfg src frame robotNum j g)
        (processGeoms_matBeforeObj cfg src frame robotNum (j + 1) rest)
    · have : (processGeoms cfg src frame robotNum j (g :: rest)).calls
          = (processGeom cfg src frame robotNum j g).calls := by
        simp [processGeoms, hsok]
      rw [this]
      exact processGeom_matBeforeObj cfg src frame robotNum j g

theorem loadLinks_matBeforeObj (cfg : Config) :
    ∀ msg : List LinkRecord, MatBeforeObj (loadLinks cfg msg).calls
  | [] => matBeforeObj_nil
  | l :: rest => by
    cases hsp : splitFirst l.name with
    | none => simp only [loadLinks, hsp]; exact matBeforeObj_nil
    | some p =>
      obtain ⟨src, frame⟩ := p
      by_cases hsok : (processGeoms cfg src frame l.robotNum 0 l.geoms).ok
      · have : (loadLinks cfg (l :: rest)).calls
            = (processGeoms cfg src frame l.robotNum 0 l.geoms).calls
              ++ (loadLinks cfg rest).calls := by
          cases hst : (loadLinks cfg rest).state <;>
            simp [loadLinks, hsp, hsok, hst]
        rw [this]
        exact matBeforeObj_append
          (processGeoms_matBeforeObj cfg src frame l.robotNum 0 l.geoms)
          (loadLinks_matBeforeObj cfg rest)
      · have : (loadLinks cfg (l :: rest)).calls
            = (processGeoms cfg src frame l.robotNum 0 l.geoms).calls := by
          simp [loadLinks, hsp, hsok]
        rw [this]
        exact processGeoms_matBeforeObj cfg src frame l.robotNum 0 l.geoms

theorem cameraCalls_noObj (cfg : Config) :
    ∀ (i : Nat) (tfs : List RigidTf), ∀ c ∈ cameraCalls cfg i tfs, objMatKey c = none
  | _, [], c, hc => by simp [cameraCalls] at hc
  | i, tf :: rest, c, hc => by
    simp only [cameraCalls, List.mem_cons] at hc
    rcases hc with rfl | rfl | hc
    · rfl
    · rfl
    · exact cameraCalls_noObj cfg (i + 1) rest c hc

theorem load_matBeforeObj (cfg : Config) (msg : List LinkRecord) :
    MatBeforeObj (load cfg msg).calls := by
  cases hst : (loadLinks cfg msg).state with
  | some st =>
    have : (load cfg msg).calls
        = RemoteCall.initScene
          :: ((loadLinks cfg msg).calls
            ++ (cameraCalls cfg 0 cfg.cameraTfs
              ++ [RemoteCall.setEnvironmentMap envMapPath])) := by
      simp [load, hst]
    rw [this]
    refine matBeforeObj_cons rfl (matBeforeObj_append (loadLinks_matBeforeObj cfg msg)
      (matBeforeObj_append (matBeforeObj_noObj (cameraCalls_noObj cfg 0 cfg.cameraTfs))
        (matBeforeObj_noObj ?_)))
    intro c hc
    simp at hc
    subst hc
    rfl
  | none =>
    have : (load cfg msg).calls = RemoteCall.initScene :: (loadLinks cfg msg).calls := by
      simp [load, hst]
    rw [this]
    exact matBeforeObj_cons rfl (loadLinks_matBeforeObj cfg msg)

theorem countP_doPublish (q : RemoteCall → Bool)
    (hu : ∀ n l r, q (RemoteCall.updateParameters n l r) = false)
    (hr : ∀ n i p, q (RemoteCall.camRender n i p) = false)
    (hs : ∀ pth, q (RemoteCall.saveCurrentScene pth) = false)
    (cfg : Config) (st : LoadState) (pubNum : Nat) (bundle : List PoseEntry) :
    (doPublish cfg st pubNum bundle).calls.countP q = 0 := by
  by_cases hpe : (publishEntries cfg st bundle).ok
  · simp only [doPublish, hpe, if_true]
    rw [List.countP_append, List.countP_append,
      countP_publishEntries q hu cfg st bundle,
      countP_renderCalls q hr pubNum 0 cfg.cameraTfs]
    split <;> simp [hs, List.countP_cons]
  · simp [doPublish, hpe, countP_publishEntries q hu cfg st bundle]

theorem doPublish_tick_calls (cfg : Config) (st : LoadState) (pubNum : Nat)
    (bundle : List PoseEntry) :
    ∀ c ∈ (doPublish cfg st pubNum bundle).calls,
      isRegisterCall c = false ∧ objMatKey c = none := by
  intro c hc
  constructor
  · have h0 := countP_doPublish isRegisterCall (fun _ _ _ => rfl) (fun _ _ _ => rfl)
      (fun _ => rfl) cfg st pubNum bundle
    have := List.countP_eq_zero.mp h0 c hc
    simpa using this
  · have h0 := countP_doPublish (fun c => (objMatKey c).isSome) (fun _ _ _ => rfl)
      (fun _ _ _ => rfl) (fun _ => rfl) cfg st pubNum bundle
    have := List.countP_eq_zero.mp h0 c hc
    exact Option.not_isSome_iff_eq_none.mp (by simpa using this)

theorem runTicks_tick_calls (cfg : Config) (st : LoadState) :
    ∀ (ts : List (List PoseEntry)) (p : Nat),
    ∀ c ∈ (runTicks cfg st p ts).1.flatten,
      isRegisterCall c = false ∧ objMatKey c = none
  | [], _, c, hc => by simp [runTicks] at hc
  | b :: rest, p, c, hc => by
    by_cases hok : (doPublish cfg st p b).ok
    · simp only [runTicks, hok, if_true, List.flatten_cons, List.mem_append] at hc
      rcases hc with hc | hc
      · exact doPublish_tick_calls cfg st p b c hc
      · exact runTicks_tick_calls cfg st rest (p + 1) c hc
    · have hfst : (runTicks cfg st p (b :: rest)).1 = [(doPublish cfg st p b).calls] := by
        simp [runTicks, hok]
      rw [hfst] at hc
      simp only [List.flatten_cons, List.flatten_nil, List.append_nil] at hc
      exact doPublish_tick_calls cfg st p b c hc

theorem load_calls_no_update (cfg : Config) (msg : List LinkRecord) :
    ∀ c ∈ (load cfg msg).calls, isUpdateCall c = false := by
  intro c hc
  have h0 := countP_load isUpdateCall rfl (fun _ _ => rfl)
    (fun _ _ _ _ _ _ _ => rfl) (fun _ _ _ => rfl) (fun _ _ _ _ => rfl)
    (fun _ => rfl) cfg msg
  have := List.countP_eq_zero.mp h0 c hc
  simpa using this

/-- C6: in the session call stream, every `register_object` call is
preceded by a `register_material` call for the material key it
references, and every registration (material or object) strictly precedes
every `update_parameters` call. -/
theorem c6_material_before_object_order (cfg : Config) (msg : List LinkRecord)
    (ticks : List (List PoseEntry)) :
    MatBeforeObj (session cfg msg ticks).1
    ∧ (∀ (i j : Nat) (ci cj : RemoteCall),
        (session cfg msg ticks).1[i]? = some ci → isRegisterCall ci = true →
        (session cfg msg ticks).1[j]? = some cj → isUpdateCall cj = true → i < j) := by
  cases hst : (load cfg msg).state with
  | none =>
    have hcalls : (session cfg msg ticks).1 = (load cfg msg).calls := by
      simp [session, hst]
    constructor
    · rw [hcalls]
      exact load_matBeforeObj cfg msg
    · intro i j ci cj hi hri hj huj
      rw [hcalls] at hj
      have := load_calls_no_update cfg msg cj (List.getElem?_mem hj)
      rw [huj] at this
      cases this
  | some st =>
    have hcalls : (session cfg msg ticks).1
        = (load cfg msg).calls ++ (runTicks cfg st 0 ticks).1.flatten := by
      simp [session, hst]
    constructor
    · rw [hcalls]
      exact matBeforeObj_append (load_matBeforeObj cfg msg)
        (matBeforeObj_noObj (fun c hc => (runTicks_tick_calls cfg st ticks 0 c hc).2))
    · intro i j ci cj hi hri hj huj
      rw [hcalls] at hi hj
      have hilen : i < (load cfg msg).calls.length := by
        by_contra hcon
        rw [List.getElem?_append_right (by omega)] at hi
        have := (runTicks_tick_calls cfg st ticks 0 ci (List.getElem?_mem hi)).1
        rw [hri] at this
        cases this
      have hjlen : ¬(j < (load cfg msg).calls.length) := by
        intro hcon
        rw [List.getElem?_append, if_pos hcon] at hj
        have := load_calls_no_update cfg msg cj (List.getElem?_mem hj)
        rw [huj] at this
        cases this
      omega

/-- Witness for C6 on the two-tick box session: the object registration at
stream index 2 is preceded by a material registration for its key, and
the material registration at index 1 precedes the first update call at
index 4. -/
theorem c6_material_before_object_order_witness :
    (∃ (m : Nat) (p : MatParams), m < 2 ∧ (session cfgNil [linkBox] ticks2).1[m]?
        = some (RemoteCall.registerMaterial
            (str "material_" ++ formatGeomName (str "a") (str "b") 0 0) p))
    ∧ 1 < 4 := by
  have h := c6_material_before_object_order cfgNil [linkBox] ticks2
  constructor
  · exact h.1 2 (str "material_" ++ formatGeomName (str "a") (str "b") 0 0)
      (((session cfgNil [linkBox] ticks2).1[2]?).getD RemoteCall.initScene)
      (by rfl) (by decide)
  · exact h.2 1 4
      (((session cfgNil [linkBox] ticks2).1[1]?).getD RemoteCall.initScene)
      (((session cfgNil [linkBox] ticks2).1[4]?).getD RemoteCall.initScene)
      (by rfl) (by decide) (by rfl) (by decide)

theorem formatGeomName_inj_idx {src frame : Chars} {r j i : Nat}
    (h : formatGeomName src frame r j = formatGeomName src frame r i) : j = i := by
  unfold formatGeomName at h
  have h1 := List.append_cancel_left h
  injection h1 with _ h2
  injection h2 with _ h3
  have h4 := List.append_cancel_left h3
  injection h4 with _ h5
  injection h5 with _ h6
  have h7 := List.append_cancel_left h6
  injection h7 with _ h8
  injection h8 with _ h9
  exact natChars_inj h9

theorem mem_processGeoms_names {cfg : Config} {src frame : Chars} {robotNum : Nat} :
    ∀ {j0 : Nat} {gs : List GeomRecord} {x : Chars},
    x ∈ (processGeoms cfg src frame robotNum j0 gs).names →
    ∃ i, j0 ≤ i ∧ x = formatGeomName src frame robotNum i := by
  intro j0 gs
  induction gs generalizing j0 with
  | nil => intro x hx; simp [processGeoms] at hx
  | cons g rest ih =>
    intro x hx
    have hhead : ∀ y : Chars, y ∈ (processGeom cfg src frame robotNum j0 g).name.toList →
        y = formatGeomName src frame robotNum j0 := by
      intro y hy
      rw [processGeom_name] at hy
      by_cases halpha : g.color.a = 0
      · simp [halpha] at hy
      · simp [halpha] at hy
        exact hy
    by_cases hsok : (processGeom cfg src frame robotNum j0 g).ok
    · have : (processGeoms cfg src frame robotNum j0 (g :: rest)).names
          = (processGeom cfg src frame robotNum j0 g).name.toList
            ++ (processGeoms cfg src frame robotNum (j0 + 1) rest).names := by
        simp [processGeoms, hsok]
      rw [this] at hx
      rcases List.mem_append.mp hx with hx | hx
      · exact ⟨j0, le_refl j0, hhead x hx⟩
      · obtain ⟨i, hi, rfl⟩ := ih hx
        exact ⟨i, by omega, rfl⟩
    · have : (processGeoms cfg src frame robotNum j0 (g :: rest)).names
          = (processGeom cfg src frame robotNum j0 g).name.toList := by
        simp [processGeoms, hsok]
      rw [this] at hx
      exact ⟨j0, le_refl j0, hhead x hx⟩

theorem processGeoms_names_nodup (cfg : Config) (src frame : Chars) (robotNum : Nat) :
    ∀ (j0 : Nat) (gs : List GeomRecord),
    (processGeoms cfg src frame robotNum j0 gs).names.Nodup
  | _, [] => List.nodup_nil
  | j0, g :: rest => by
    have hrest := processGeoms_names_nodup cfg src frame robotNum (j0 + 1) rest
    by_cases hsok : (processGeom cfg src frame robotNum j0 g).ok
    · have hstep : (processGeoms cfg src frame robotNum j0 (g :: rest)).names
          = (processGeom cfg src frame robotNum j0 g).name.toList
            ++ (processGeoms cfg src frame robotNum (j0 + 1) rest).names := by
        simp [processGeoms, hsok]
      rw [hstep, processGeom_name]
      by_cases halpha : g.color.a = 0
      · simpa [halpha] using hrest
      · rw [if_neg halpha]
        simp only [Option.toList_some, List.singleton_append, List.nodup_cons]
        refine ⟨?_, hrest⟩
        intro hmem
        obtain ⟨i, hi, heq⟩ := mem_processGeoms_names hmem
        have := formatGeomName_inj_idx heq
        omega
    · have hstep : (processGeoms cfg src frame robotNum j0 (g :: rest)).names
          = (processGeom cfg src frame robotNum j0 g).name.toList := by
        simp [processGeoms, hsok]
      rw [hstep, processGeom_name]
      by_cases halpha : g.color.a = 0 <;> simp [halpha]

theorem mem_loadLinks_names {cfg : Config} :
    ∀ {ls : List LinkRecord} {x : Chars}, x ∈ (loadLinks cfg ls).names →
    ∃ l ∈ ls, ∃ src frame i, splitFirst l.name = some (src, frame)
      ∧ x = formatGeomName src frame l.robotNum i := by
  intro ls
  induction ls with
  | nil => intro x hx; simp [loadLinks] at hx
  | cons l rest ih =>
    intro x hx
    cases hsp : splitFirst l.name with
    | none =>
      rw [show (loadLinks cfg (l :: rest)).names = [] by simp [loadLinks, hsp]] at hx
      simp at hx
    | some p =>
      obtain ⟨src, frame⟩ := p
      by_cases hsok : (processGeoms cfg src frame l.robotNum 0 l.geoms).ok
      · have : (loadLinks cfg (l :: rest)).names
            = (processGeoms cfg src frame l.robotNum 0 l.geoms).names
              ++ (loadLinks cfg rest).names := by
          cases hst : (loadLinks cfg rest).state <;> simp [loadLinks, hsp, hsok, hst]
        rw [this] at hx
        rcases List.mem_append.mp hx with hx | hx
        · obtain ⟨i, -, rfl⟩ := mem_processGeoms_names hx
          exact ⟨l, by simp, src, frame, i, hsp, rfl⟩
        · obtain ⟨l', hl', src', frame', i', hsp', rfl⟩ := ih hx
          exact ⟨l', by simp [hl'], src', frame', i', hsp', rfl⟩
      · have : (loadLinks cfg (l :: rest)).names
            = (processGeoms cfg src frame l.robotNum 0 l.geoms).names := by
          simp [loadLinks, hsp, hsok]
        rw [this] at hx
        obtain ⟨i, -, rfl⟩ := mem_processGeoms_names hx
        exact ⟨l, by simp, src, frame, i, hsp, rfl⟩

theorem loadLinks_names_nodup (cfg : Config) :
    ∀ (ls : List LinkRecord),
    ls.Pairwise (fun l1 l2 => ¬(l1.name = l2.name ∧ l1.robotNum = l2.robotNum)) →
    (loadLinks cfg ls).names.Nodup
  | [], _ => List.nodup_nil
  | l :: rest, hdist => by
    obtain ⟨hhead, htail⟩ := List.pairwise_cons.mp hdist
    cases hsp : splitFirst l.name with
    | none => simp [loadLinks, hsp]
    | some p =>
      obtain ⟨src, frame⟩ := p
      have hdisj : ∀ x, x ∈ (processGeoms cfg src frame l.robotNum 0 l.geoms).names →
          x ∈ (loadLinks cfg rest).names → False := by
        intro x hx1 hx2
        obtain ⟨i, -, rfl⟩ := mem_processGeoms_names hx1
        obtain ⟨l', hl', src', frame', i', hsp', heq⟩ := mem_loadLinks_names hx2
        obtain ⟨hname, hclean⟩ := splitFirst_eq_some hsp
        obtain ⟨hname', hclean'⟩ := splitFirst_eq_some hsp'
        obtain ⟨h1, h2, h3, -⟩ := formatGeomName_inj hclean hclean' heq
        exact hhead l' hl' ⟨by rw [hname, hname', h1, h3], h2⟩
      by_cases hsok : (processGeoms cfg src frame l.robotNum 0 l.geoms).ok
      · have : (loadLinks cfg (l :: rest)).names
            = (processGeoms cfg src frame l.robotNum 0 l.geoms).names
              ++ (loadLinks cfg rest).names := by
          cases hst : (loadLinks cfg rest).state <;> simp [loadLinks, hsp, hsok, hst]
        rw [this]
        exact List.nodup_append.mpr
          ⟨processGeoms_names_nodup cfg src frame l.robotNum 0 l.geoms,
           loadLinks_names_nodup cfg rest htail, hdisj⟩
      · have : (loadLinks cfg (l :: rest)).names
            = (processGeoms cfg src frame l.robotNum 0 l.geoms).names := by
          simp [loadLinks, hsp, hsok]
        rw [this]
        exact processGeoms_names_nodup cfg src frame l.robotNum 0 l.geoms

/-- C9 counterexample: a load message that lists the same body record
twice (same composite name, same model-instance id) assigns the same
derived geometry name twice, so the derived names of a load are not
pairwise distinct for every load description. -/
theorem c9_duplicate_link_counterexample :
    ¬ (load cfgNil [linkBox, linkBox]).names.Nodup := by
  decide

/-- C9 amended: in every load description in which no two links agree on
both the composite name and the model-instance id, the derived geometry
names assigned during the load are pairwise distinct; in particular two
bodies with identical frame names but different source names or different
model-instance ids never collide, even when frame names themselves
contain the `::` delimiter. -/
theorem c9_derived_names_nodup (cfg : Config) (msg : List LinkRecord)
    (hdist : msg.Pairwise
      (fun l1 l2 => ¬(l1.name = l2.name ∧ l1.robotNum = l2.robotNum))) :
    (load cfg msg).names.Nodup := by
  have : (load cfg msg).names = (loadLinks cfg msg).names := by
    cases hst : (loadLinks cfg msg).state <;> simp [load, hst]
  rw [this]
  exact loadLinks_names_nodup cfg msg hdist

/-- Witness for the amended C9: two bodies with different composite names
(one box body and the foo::box body) load with pairwise distinct derived
names. -/
theorem c9_derived_names_nodup_witness :
    (load cfgNil [linkBox, linkFooBox]).names.Nodup :=
  c9_derived_names_nodup cfgNil [linkBox, linkFooBox] (by decide)

end BlenderVis
